import Mathlib

/-!
Shallow embedding of the bingo-backend room/game logic.

The repository ships two generations of the engine side by side:
`src/logic.rs` (room driver, `GameData` with an inline Bingo state) and
`src/games/bingo.rs` (the `Bingo` engine behind the `GameTrait` interface).
Both are embedded below where they differ; shared data shapes
(`Board`, `SelectedCell`, `GameState`, …) are identical in both files and
are defined once.

Machine integers: all the `u32`/`u16` values handled here (cell values,
board sizes, scores) are only ever compared, counted or pushed, never
overflowed, except for the `u16` multiplication `board_size * board_size`
in `Board::new`, which is modelled with an explicit `% 65536`.
Tokio channels are modelled by an `Option Nat` channel id: the code only
ever tests presence (`is_some`), clones, attaches and clears them.
-/

structure Player where
  id : String
  name : String
deriving DecidableEq, Repr

/-- One called number together with the id of the player who called it
(`SelectedCell` in both `logic.rs` and `games/bingo.rs`). -/
structure SelectedCell where
  cell_value : Nat
  selected_by : String
deriving DecidableEq, Repr

/-- A bingo board: the raw `Vec<Vec<u32>>` of cell numbers. -/
structure Board where
  numbers : List (List Nat)
deriving DecidableEq, Repr

structure BoardCreation where
  ready : List String
deriving DecidableEq, Repr

structure GameRunning where
  turn : String
  selected_numbers : List SelectedCell
deriving DecidableEq, Repr

inductive GameState where
  | BoardCreation (bc : BoardCreation)
  | GameRunning (gr : GameRunning)
deriving DecidableEq, Repr

def GameState.is_game_running : GameState → Bool
  | .GameRunning _ => true
  | .BoardCreation _ => false

def gameStateAsGameRunning : GameState → Option GameRunning
  | .GameRunning gr => some gr
  | .BoardCreation _ => none

def GameState.as_game_running :=
  gameStateAsGameRunning

/-- `GamePlayer` of `logic.rs`: roster entry of a running game. -/
structure GamePlayer where
  player : Player
  board : Option Board
  send_channel : Option Nat
deriving DecidableEq, Repr

structure Rank where
  rank : Nat
  player : Player
deriving DecidableEq, Repr

/-- `GameData` of `logic.rs`. -/
structure GameData where
  players : List GamePlayer
  board_size : Nat
  game_state : GameState
deriving DecidableEq, Repr

structure LobbyPlayer where
  player : Player
  send_channel : Option Nat
deriving DecidableEq, Repr

structure LastGame where
  last_game : GameData
  leader_board : List Rank
deriving DecidableEq, Repr

structure LobbyData where
  players : List LobbyPlayer
  last_game : Option LastGame
deriving DecidableEq, Repr

inductive RoomState where
  | Lobby (d : LobbyData)
  | Game (d : GameData)
deriving DecidableEq, Repr

structure Room where
  id : String
  state : RoomState
deriving DecidableEq, Repr

/-- `Board::new` (identical in `logic.rs` and `games/bingo.rs`): collect the
flattened numbers into a set, require exactly `board_size²` distinct values
(the `u16` square is taken modulo 2¹⁶ as in release-mode Rust), then require
`min ≥ 1` and `max ≤ board_size²`; the shape of `numbers` is never
inspected. -/
def Board.new (numbers : List (List Nat)) (board_size : Nat) : Except String Board :=
  let sq : Nat := (board_size * board_size) % 65536
  let all_num : List Nat := numbers.flatten.dedup
  if all_num.length = sq then
    if (all_num.min?.getD 0) < 1 ∨ (all_num.max?.getD ((board_size * board_size + 1) % 65536)) > sq then
      .error "Invalid value of board"
    else
      .ok ⟨numbers⟩
  else
    .error "Invalid Board"

/-- Cell lookup `self.numbers[i][j]` (total model; both uses below are
guarded by `i, j < numbers.len()` on square boards, where the default is
never read). -/
def Board.cellAt (b : Board) (i j : Nat) : Nat :=
  (b.numbers.getD i []).getD j 0

/-- The marked grid built at the top of `Board::get_score`: a called cell
becomes `0`, any other cell keeps its value. -/
def Board.markedCell (b : Board) (selected_cells : List SelectedCell) (i j : Nat) : Nat :=
  if selected_cells.any (fun cell => cell.cell_value == b.cellAt i j) then 0 else b.cellAt i j

/-- `Board::get_score` (identical in both files): one point per fully
zeroed row, per fully zeroed column, and for each of the two diagonals. -/
def Board.get_score (b : Board) (selected_cells : List SelectedCell) : Nat :=
  let n := b.numbers.length
  ((List.range n).countP fun i => (List.range n).all fun j => b.markedCell selected_cells i j == 0)
    + ((List.range n).countP fun j => (List.range n).all fun i => b.markedCell selected_cells i j == 0)
    + (if (List.range n).all (fun i => b.markedCell selected_cells i i == 0) then 1 else 0)
    + (if (List.range n).all (fun i => b.markedCell selected_cells i (n - 1 - i) == 0) then 1 else 0)

def Board.wining_points (b : Board) : Nat :=
  b.numbers.length

def Board.has_completed (b : Board) (selected_cells : List SelectedCell) : Bool :=
  b.get_score selected_cells ≥ b.wining_points

def Board.max_points (b : Board) : Nat :=
  b.numbers.length * 2 + 2

/-- Score of one player at the prefix `selected_numbers[0..l+1]` of the call
history, clamped to the board size — the quantity accumulated inside the
ranking loop of `GameData::get_rankings` (`logic.rs`). -/
def prefixScore (board_size : Nat) (selected_numbers : List SelectedCell)
    (board : Option Board) (l : Nat) : Nat :=
  min ((board.map fun b => b.get_score (selected_numbers.take (l + 1))).getD 0) board_size

/-- The `(best score so far, loop index that achieved it)` pair maintained
per player by the ranking loop: starting from `(0, 0)`, entry `l` of the
loop replaces the pair by `(score, l)` whenever the prefix score at `l`
strictly exceeds the stored score. -/
def rankKeyFold (f : Nat → Nat) (m : Nat) : Nat × Nat :=
  (List.range m).foldl (fun acc l => if acc.1 < f l then (f l, l) else acc) (0, 0)

/-- Comparison used by the `sort_by` call in `get_rankings`: an entry sorts
before another iff its score is larger, or the scores tie and its achieving
index is not larger. -/
def rankKeyLe (a b : Nat × Nat) : Prop :=
  b.1 < a.1 ∨ (a.1 = b.1 ∧ a.2 ≤ b.2)

instance : DecidableRel rankKeyLe := fun a b => by
  unfold rankKeyLe; infer_instance

/-- Comparator lifted to `(key, player)` entries. -/
def rankEntryLe (a b : (Nat × Nat) × Player) : Prop :=
  rankKeyLe a.1 b.1

instance : DecidableRel rankEntryLe := fun a b => by
  unfold rankEntryLe; infer_instance

/-- The rank-assignment loop at the bottom of `get_rankings`: walk the
sorted entries keeping the previous key and the running rank; the rank is
incremented on the first entry and whenever the previous key had a larger
score (`last.0 > p.0`) or an earlier achieving index (`last.1 < p.1`). -/
def assignRanks : Option (Nat × Nat) → Nat → List ((Nat × Nat) × Player) → List Rank
  | _, _, [] => []
  | last, rank, e :: rest =>
    let newRank :=
      match last with
      | none => rank + 1
      | some lk => if e.1.1 < lk.1 ∨ lk.2 < e.1.2 then rank + 1 else rank
    ⟨newRank, e.2⟩ :: assignRanks (some e.1) newRank rest

/-- `GameData::get_rankings` (`logic.rs`): compute each player's
`(prefix-max clamped score, achieving index)` key, stable-sort by
score descending then index ascending, and assign ranks with ties sharing
a rank. Rust's `sort_by` is a stable sort; it is modelled by
`List.insertionSort`, which is stable for the same comparator. -/
def GameData.get_rankings (g : GameData) : List Rank :=
  match g.game_state with
  | .BoardCreation _ => []
  | .GameRunning data =>
    let keyed := g.players.map fun p =>
      (rankKeyFold (prefixScore g.board_size data.selected_numbers p.board)
        data.selected_numbers.length, p.player)
    assignRanks none 0 (List.insertionSort rankEntryLe keyed)

/-- Eligibility test used by both the guard and the scan of
`GameData::change_turn` (`logic.rs`): a live channel and a submitted board
that is not yet complete. -/
def turnEligible (selected_numbers : List SelectedCell) (p : GamePlayer) : Bool :=
  p.send_channel.isSome &&
    (match p.board with
     | some b => !(b.has_completed selected_numbers)
     | none => false)

/-- `GameData::change_turn` (`logic.rs`): if no connected player still has
an incomplete board, return unchanged; otherwise locate the current
turn-holder and hand the turn to the first eligible player when scanning
cyclically from just after that position (unchanged if the turn-holder is
not on the roster). -/
def GameData.change_turn (g : GameData) : GameData :=
  match g.game_state with
  | .BoardCreation _ => g
  | .GameRunning data =>
    if !(g.players.any (turnEligible data.selected_numbers)) then g
    else
      match g.players.findIdx? (fun p => p.player.id == data.turn) with
      | none => g
      | some position =>
        match (g.players.rotate (position + 1)).find? (turnEligible data.selected_numbers) with
        | some p => { g with game_state := .GameRunning { data with turn := p.player.id } }
        | none => g

/-- `GameData::is_game_end` (`logic.rs`): false unless the game is running;
then true iff at most one connected player has a board scoring strictly
below the board size. -/
def GameData.is_game_end (g : GameData) : Bool :=
  match g.game_state.as_game_running with
  | some game_running =>
    (g.players.filter (fun p => p.send_channel.isSome)).countP
      (fun p =>
        match p.board with
        | some board => board.get_score game_running.selected_numbers < g.board_size
        | none => false) ≤ 1
  | none => false

/-- `RoomState::add_player` (`data.rs`): in the lobby, a duplicate id is a
silent success and a fresh id is appended with no channel; in a game, only
ids already on the game roster succeed. Errors are returned as the string
the Rust code wraps in `anyhow!`. -/
def RoomState.add_player (s : RoomState) (player : Player) : RoomState × Option String :=
  match s with
  | .Lobby lobbydata =>
    if lobbydata.players.any (fun p => p.player.id == player.id) then
      (s, none)
    else
      (.Lobby { lobbydata with players := lobbydata.players ++ [⟨player, none⟩] }, none)
  | .Game data =>
    if data.players.any (fun p => p.player.id == player.id) then
      (s, none)
    else
      (s, some "Game already running")

/-- `RoomState::is_empty` (`data.rs`). -/
def RoomState.is_empty (s : RoomState) : Bool :=
  match s with
  | .Lobby data => !(data.players.any fun p => p.send_channel.isSome)
  | .Game data => !(data.players.any fun p => p.send_channel.isSome)

/-- `RoomState::handle_game_end` (`data.rs`): when a game reports
end-of-game, build the new lobby roster from the game roster (carrying the
channels over, since the roster is cloned *before* the loop that clears
channels), then clear every channel on the departing game roster, and
archive that cleared `GameData` with its rankings as `last_game` — the
engine-running test `data.game.is_game_running()` reads the (unchanged)
game state of the departing data. -/
def RoomState.handle_game_end (s : RoomState) : RoomState :=
  match s with
  | .Lobby _ => s
  | .Game data =>
    if data.is_game_end then
      let lobby_player : List LobbyPlayer :=
        data.players.map fun p => ⟨p.player, p.send_channel⟩
      let cleared : GameData :=
        { data with players := data.players.map fun p => { p with send_channel := none } }
      .Lobby
        ⟨lobby_player,
          if cleared.game_state.is_game_running then
            some ⟨cleared, cleared.get_rankings⟩
          else
            none⟩
    else
      s

/-- `PlayerEvents` of `logic.rs`. -/
inductive PlayerEvents where
  | StartGame (board_size : Nat)
  | ReadyBoard (board : Board)
  | Move (cell : Nat)

/-- Mutation `player.board = Some(board)` performed through
`iter_mut().find(...)`: only the first roster entry with the given id is
updated. -/
def setBoardFirst : List GamePlayer → String → Board → List GamePlayer
  | [], _, _ => []
  | p :: rest, player_id, board =>
    if p.player.id == player_id then { p with board := some board } :: rest
    else p :: setBoardFirst rest player_id board

/-- `Room::handle_player_message` (`logic.rs`). The returned pair is the
room as left by the call together with the error, if any: Rust mutates
`self` in place, so an error site late in a branch would leave earlier
mutations visible, which this model reproduces (see the `"No player"`
site inside the ready-board branch, reached after the board and ready-list
writes). On success the final `self.state.handle_game_end()` runs. -/
def Room.handle_player_message (room : Room) (player_id : String) (player_message : PlayerEvents) :
    Room × Option String :=
  match player_message with
  | .StartGame board_size =>
    match room.state with
    | .Lobby data =>
      let players : List GamePlayer := data.players.map fun p => ⟨p.player, none, p.send_channel⟩
      let st : RoomState := .Game ⟨players, board_size, .BoardCreation ⟨[]⟩⟩
      ({ room with state := st.handle_game_end }, none)
    | .Game _ => (room, some "Game Already Started")
  | .ReadyBoard board =>
    match room.state with
    | .Lobby _ => (room, some "Game Not Started")
    | .Game data =>
      match data.game_state with
      | .BoardCreation board_creation =>
        if board_creation.ready.contains player_id then
          (room, some "Board already set")
        else if data.players.any (fun p => p.player.id == player_id) then
          let players' := setBoardFirst data.players player_id board
          let ready' := board_creation.ready ++ [player_id]
          if ready'.length = players'.length then
            match players'.head? with
            | none =>
              ({ room with state := .Game { data with players := players', game_state := .BoardCreation ⟨ready'⟩ } },
                some "No player")
            | some first =>
              let d2 : GameData :=
                { data with players := players', game_state := .GameRunning ⟨first.player.id, []⟩ }
              ({ room with state := (RoomState.Game d2).handle_game_end }, none)
          else
            let d2 : GameData :=
              { data with players := players', game_state := .BoardCreation ⟨ready'⟩ }
            ({ room with state := (RoomState.Game d2).handle_game_end }, none)
        else
          (room, some "Player not found")
      | .GameRunning _ => (room, some "Game Already Running")
  | .Move mov =>
    match room.state with
    | .Lobby _ => (room, some "Game Not Started")
    | .Game data =>
      match data.game_state with
      | .BoardCreation _ => (room, some "Game Not Running")
      | .GameRunning running_data =>
        if running_data.turn == player_id then
          if running_data.selected_numbers.any (fun c => c.cell_value == mov) then
            (room, some "Invalid move")
          else
            let rd1 : GameRunning :=
              { running_data with
                selected_numbers := running_data.selected_numbers ++ [⟨mov, player_id⟩] }
            let d1 : GameData := { data with game_state := .GameRunning rd1 }
            let d2 := d1.change_turn
            ({ room with state := (RoomState.Game d2).handle_game_end }, none)
        else
          (room, some "Not your turn")

/-- `BingoPlayerData` (`games/bingo.rs`). -/
structure BingoPlayerData where
  board : Option Board
deriving DecidableEq, Repr

/-- `PlayerGameData` (`games/mod.rs`); the Boxes payload is its player
colour, irrelevant to every Bingo operation below but kept so that
`as_bingo_player_data` can genuinely return `none`. -/
inductive PlayerGameData where
  | BingoPlayerData (d : BingoPlayerData)
  | BoxesPlayerData (color : String)
deriving DecidableEq, Repr

def playerGameDataAsBingo : PlayerGameData → Option BingoPlayerData
  | .BingoPlayerData d => some d
  | .BoxesPlayerData _ => none

def PlayerGameData.as_bingo_player_data :=
  playerGameDataAsBingo

/-- `GamePlayer` as the `games/` generation of the code uses it: the
per-player engine data lives behind the `PlayerGameData` union. -/
structure GamePlayerG where
  player : Player
  data : PlayerGameData
  send_channel : Option Nat
deriving DecidableEq, Repr

/-- The `Bingo` engine (`games/bingo.rs`). -/
structure Bingo where
  game_state : GameState
  board_size : Nat
deriving DecidableEq, Repr

/-- Eligibility test shared by the guard and the scan of
`Bingo::get_next_turn_player`: a live channel, Bingo player data with a
submitted board, and the board not yet complete. -/
def bingoEligible (selected_numbers : List SelectedCell) (p : GamePlayerG) : Bool :=
  p.send_channel.isSome &&
    (match p.data.as_bingo_player_data with
     | some d =>
       match d.board with
       | some b => !(b.has_completed selected_numbers)
       | none => false
     | none => false)

def Bingo.is_game_running (b : Bingo) : Bool :=
  b.game_state.is_game_running

def Bingo.can_change_turn (b : Bingo) (player_id : String) : Bool :=
  match b.game_state with
  | .BoardCreation _ => false
  | .GameRunning data => data.turn == player_id

/-- `Bingo::get_next_turn_player` (`games/bingo.rs`): `none` outside
`GameRunning`; otherwise, if no player is eligible, `none`; otherwise find
the position of the current turn-holder (`none` if absent — the Rust
`if let Some(position)` falls through) and return the first eligible
player of the cyclic scan starting just after that position. The Rust
scan walks `players.iter().cycle()`; under the eligible-player guard one
full rotation is enough, which `List.rotate (position + 1)` models. -/
def Bingo.get_next_turn_player (b : Bingo) (players : List GamePlayerG) : Option String :=
  match b.game_state with
  | .BoardCreation _ => none
  | .GameRunning data =>
    if !(players.any (bingoEligible data.selected_numbers)) then none
    else
      match players.findIdx? (fun p => p.player.id == data.turn) with
      | none => none
      | some position =>
        ((players.rotate (position + 1)).find? (bingoEligible data.selected_numbers)).map
          fun p => p.player.id

def Bingo.change_turn (b : Bingo) (player_id : String) : Bingo :=
  match b.game_state with
  | .BoardCreation _ => b
  | .GameRunning data => { b with game_state := .GameRunning { data with turn := player_id } }

/-- `Bingo::is_game_end` (`games/bingo.rs`): while running, true iff at
most one connected player holds a board scoring strictly below the board
size; outside `GameRunning` (unlike `GameData::is_game_end` of
`logic.rs`), true iff at most one player is connected. -/
def Bingo.is_game_end (b : Bingo) (players : List GamePlayerG) : Bool :=
  match b.game_state.as_game_running with
  | some game_running =>
    (players.filter (fun p => p.send_channel.isSome)).countP
      (fun p =>
        match p.data.as_bingo_player_data with
        | some d =>
          match d.board with
          | some board => board.get_score game_running.selected_numbers < b.board_size
          | none => false
        | none => false) ≤ 1
  | none => players.countP (fun p => p.send_channel.isSome) ≤ 1

/-! Concrete fixtures used by witness and counterexample theorems. -/

def playerA : Player := ⟨"a", "A"⟩

def playerB : Player := ⟨"b", "B"⟩

def board1 : Board := ⟨[[1]]⟩

def board2a : Board := ⟨[[1, 2], [3, 4]]⟩

def board2b : Board := ⟨[[1, 3], [2, 4]]⟩

/-- A one-player running 1×1 game whose end condition holds. -/
def gdEnd : GameData := ⟨[⟨playerA, some board1, some 0⟩], 1, .GameRunning ⟨"a", []⟩⟩

/-- A connected Bingo-game player who never submitted a board. -/
def gpNoBoard : GamePlayerG := ⟨playerA, .BingoPlayerData ⟨none⟩, some 0⟩

/-- A connected Bingo-game player holding an incomplete 1×1 board. -/
def gpLive : GamePlayerG := ⟨playerB, .BingoPlayerData ⟨some board1⟩, some 0⟩

/-- A two-player running 2×2 game with one number already called. -/
def gdRun : GameData :=
  ⟨[⟨playerA, some board2a, some 0⟩, ⟨playerB, some board2b, some 1⟩], 2,
    .GameRunning ⟨"a", [⟨1, "a"⟩]⟩⟩

def roomRun : Room := ⟨"r", .Game gdRun⟩

def roomLob : Room := ⟨"r", .Lobby ⟨[⟨playerA, some 0⟩], none⟩⟩

def roomBC : Room := ⟨"r", .Game ⟨[⟨playerA, none, some 0⟩], 2, .BoardCreation ⟨[]⟩⟩⟩

/-- A board that is valid in the spec's sense: accepted by `Board::new`
for size `n` and genuinely shaped as an `n×n` grid. -/
def BoardValid (b : Board) (n : Nat) : Prop :=
  (Board.new b.numbers n).isOk = true ∧ b.numbers.length = n ∧ ∀ row ∈ b.numbers, row.length = n

instance : ∀ b n, Decidable (BoardValid b n) := fun b n => by
  unfold BoardValid; infer_instance

/-- The selected-number history visible in a room: directly in a running
game, or inside the `last_game` archive after the Game→Lobby transition. -/
def selectedOf (r : Room) : Option (List SelectedCell) :=
  match r.state with
  | .Game d =>
    match d.game_state with
    | .GameRunning rd => some rd.selected_numbers
    | .BoardCreation _ => none
  | .Lobby l =>
    match l.last_game with
    | some lg =>
      match lg.last_game.game_state with
      | .GameRunning rd => some rd.selected_numbers
      | .BoardCreation _ => none
    | none => none

/-- One successful `handle_player_message` call viewed as a transition. -/
def Step (r r' : Room) : Prop :=
  ∃ pid msg, r.handle_player_message pid msg = (r', none)

/-- Two connected players waiting in a lobby. -/
def lobbyTwo : Room := ⟨"r", .Lobby ⟨[⟨playerA, some 0⟩, ⟨playerB, some 1⟩], none⟩⟩

def rFresh : Room :=
  ⟨"r", .Game ⟨[⟨playerA, none, some 0⟩, ⟨playerB, none, some 1⟩], 2, .BoardCreation ⟨[]⟩⟩⟩

def rReadyA : Room :=
  ⟨"r", .Game ⟨[⟨playerA, some board2a, some 0⟩, ⟨playerB, none, some 1⟩], 2,
    .BoardCreation ⟨["a"]⟩⟩⟩

def rReadyB : Room :=
  ⟨"r", .Game ⟨[⟨playerA, some board2a, some 0⟩, ⟨playerB, some board2b, some 1⟩], 2,
    .GameRunning ⟨"a", []⟩⟩⟩

def rMove1 : Room :=
  ⟨"r", .Game ⟨[⟨playerA, some board2a, some 0⟩, ⟨playerB, some board2b, some 1⟩], 2,
    .GameRunning ⟨"b", [⟨1, "a"⟩]⟩⟩⟩

def rMove2 : Room :=
  ⟨"r", .Game ⟨[⟨playerA, some board2a, some 0⟩, ⟨playerB, some board2b, some 1⟩], 2,
    .GameRunning ⟨"a", [⟨1, "a"⟩, ⟨2, "b"⟩]⟩⟩⟩

/-- Claim C9: in Lobby mode `add_player` appends an absent id (with no
channel) and is a silent no-op on a present id, so two calls with the same
id leave exactly one roster entry with that id; in Game mode it succeeds
iff the id is already on the game roster and otherwise fails with the
game-already-running error. -/
theorem add_player_C9 (s : RoomState) (player : Player) :
    (∀ d, s = RoomState.Lobby d →
      ((d.players.any fun p => p.player.id == player.id) = false →
        s.add_player player =
          (RoomState.Lobby { d with players := d.players ++ [⟨player, none⟩] }, none)) ∧
      ((d.players.any fun p => p.player.id == player.id) = true →
        s.add_player player = (s, none)) ∧
      (((s.add_player player).1.add_player player).1 = (s.add_player player).1) ∧
      ((d.players.any fun p => p.player.id == player.id) = false →
        ∃ d', ((s.add_player player).1.add_player player).1 = RoomState.Lobby d' ∧
          d'.players.countP (fun p => p.player.id == player.id) = 1)) ∧
    (∀ d, s = RoomState.Game d →
      ((d.players.any fun p => p.player.id == player.id) = true →
        s.add_player player = (s, none)) ∧
      ((d.players.any fun p => p.player.id == player.id) = false →
        s.add_player player = (s, some "Game already running"))) := by
  constructor
  · rintro d rfl
    by_cases h : (d.players.any fun p => p.player.id == player.id) = true
    · refine ⟨fun hf => by simp [h] at hf, fun _ => by simp [RoomState.add_player, h], ?_, ?_⟩
      · simp [RoomState.add_player, h]
      · intro hf; simp [h] at hf
    · have h' : (d.players.any fun p => p.player.id == player.id) = false := by
        simpa using h
      refine ⟨fun _ => by simp [RoomState.add_player, h'], fun ht => by simp [h'] at ht, ?_, ?_⟩
      · have h1 : (RoomState.Lobby d).add_player player =
            (RoomState.Lobby { d with players := d.players ++ [⟨player, none⟩] }, none) := by
          simp [RoomState.add_player, h']
        rw [h1]
        have h2 : (({ d with players := d.players ++ [⟨player, none⟩] } : LobbyData).players.any
            fun p => p.player.id == player.id) = true := by
          simp [List.any_append]
        simp [RoomState.add_player, h2]
      · intro _
        have h1 : (RoomState.Lobby d).add_player player =
            (RoomState.Lobby { d with players := d.players ++ [⟨player, none⟩] }, none) := by
          simp [RoomState.add_player, h']
        rw [h1]
        have h2 : (({ d with players := d.players ++ [⟨player, none⟩] } : LobbyData).players.any
            fun p => p.player.id == player.id) = true := by
          simp [List.any_append]
        refine ⟨{ d with players := d.players ++ [⟨player, none⟩] }, ?_, ?_⟩
        · simp [RoomState.add_player, h2]
        · have h0 : d.players.countP (fun p => p.player.id == player.id) = 0 := by
            rw [List.countP_eq_zero]
            intro p hp
            have := List.any_eq_false.mp h' p hp
            simpa using this
          simp [List.countP_append, h0]
  · rintro d rfl
    by_cases h : (d.players.any fun p => p.player.id == player.id) = true
    · exact ⟨fun _ => by simp [RoomState.add_player, h], fun hf => by simp [h] at hf⟩
    · have h' : (d.players.any fun p => p.player.id == player.id) = false := by simpa using h
      exact ⟨fun ht => by simp [h'] at ht, fun _ => by simp [RoomState.add_player, h']⟩

/-- Witness for C9: concrete two-call run on an empty lobby. -/
theorem add_player_C9_witness :
    (RoomState.Lobby ⟨[], none⟩).add_player playerA =
      (RoomState.Lobby ⟨[⟨playerA, none⟩], none⟩, none) ∧
    ∃ d', (((RoomState.Lobby ⟨[], none⟩).add_player playerA).1.add_player playerA).1 =
        RoomState.Lobby d' ∧
      d'.players.countP (fun p => p.player.id == playerA.id) = 1 := by
  have h := add_player_C9 (RoomState.Lobby ⟨[], none⟩) playerA
  exact ⟨(h.1 ⟨[], none⟩ rfl).1 (by decide), (h.1 ⟨[], none⟩ rfl).2.2.2 (by decide)⟩


/-- Claim C6: while the game is running, a move by the turn-holder fails
with "Invalid move" iff the number was already called and otherwise
appends the number (tagged with the submitter) and succeeds; a move by
anyone else fails with "Not your turn"; a move in Lobby mode or during
board creation fails with the corresponding game-not-running error
("Game Not Started" / "Game Not Running"). -/
theorem move_branch_C6 (room : Room) (player_id : String) (mov : Nat) :
    (∀ l, room.state = RoomState.Lobby l →
      room.handle_player_message player_id (.Move mov) = (room, some "Game Not Started")) ∧
    (∀ d bc, room.state = RoomState.Game d → d.game_state = GameState.BoardCreation bc →
      room.handle_player_message player_id (.Move mov) = (room, some "Game Not Running")) ∧
    (∀ d rd, room.state = RoomState.Game d → d.game_state = GameState.GameRunning rd →
      (rd.turn ≠ player_id →
        room.handle_player_message player_id (.Move mov) = (room, some "Not your turn")) ∧
      (rd.turn = player_id →
        ((rd.selected_numbers.any fun c => c.cell_value == mov) = true →
          room.handle_player_message player_id (.Move mov) = (room, some "Invalid move")) ∧
        ((rd.selected_numbers.any fun c => c.cell_value == mov) = false →
          room.handle_player_message player_id (.Move mov) =
            ({ room with state :=
                (RoomState.Game (GameData.change_turn
                  ⟨d.players, d.board_size,
                    GameState.GameRunning
                      ⟨rd.turn, rd.selected_numbers ++ [⟨mov, player_id⟩]⟩⟩)).handle_game_end },
              none)))) := by
  refine ⟨?_, ?_, ?_⟩
  · intro l hl
    simp [Room.handle_player_message, hl]
  · intro d bc hd hbc
    simp [Room.handle_player_message, hd, hbc]
  · intro d rd hd hrd
    constructor
    · intro hne
      have hb : (rd.turn == player_id) = false := by simpa using hne
      simp [Room.handle_player_message, hd, hrd, hb]
    · intro heq
      have ht : (rd.turn == player_id) = true := by simpa using heq
      constructor
      · intro hany
        simp [Room.handle_player_message, hd, hrd, ht, hany]
      · intro hany
        simp [Room.handle_player_message, hd, hrd, ht, hany]

/-- Witness for C6: concrete rooms exercising every branch — lobby move,
board-creation move, wrong-turn move, repeated number, and a successful
fresh move by the turn-holder. -/
theorem move_branch_C6_witness :
    roomLob.handle_player_message "a" (.Move 1) = (roomLob, some "Game Not Started") ∧
    roomBC.handle_player_message "a" (.Move 1) = (roomBC, some "Game Not Running") ∧
    roomRun.handle_player_message "b" (.Move 2) = (roomRun, some "Not your turn") ∧
    roomRun.handle_player_message "a" (.Move 1) = (roomRun, some "Invalid move") ∧
    (roomRun.handle_player_message "a" (.Move 2)).2 = none := by
  refine ⟨?_, ?_, ?_, ?_, ?_⟩
  · exact (move_branch_C6 roomLob "a" 1).1 ⟨[⟨playerA, some 0⟩], none⟩ rfl
  · exact (move_branch_C6 roomBC "a" 1).2.1 ⟨[⟨playerA, none, some 0⟩], 2, .BoardCreation ⟨[]⟩⟩
      ⟨[]⟩ rfl rfl
  · exact ((move_branch_C6 roomRun "b" 2).2.2 gdRun ⟨"a", [⟨1, "a"⟩]⟩ rfl rfl).1 (by decide)
  · exact (((move_branch_C6 roomRun "a" 1).2.2 gdRun ⟨"a", [⟨1, "a"⟩]⟩ rfl rfl).2 rfl).1
      (by decide)
  · have h := (((move_branch_C6 roomRun "a" 2).2.2 gdRun ⟨"a", [⟨1, "a"⟩]⟩ rfl rfl).2 rfl).2
      (by decide)
    exact (congrArg Prod.snd h).trans rfl

theorem setBoardFirst_length (l : List GamePlayer) (player_id : String) (board : Board) :
    (setBoardFirst l player_id board).length = l.length := by
  induction l with
  | nil => rfl
  | cons p rest ih =>
    by_cases h : (p.player.id == player_id) = true
    · simp [setBoardFirst, h]
    · simp only [setBoardFirst]
      rw [if_neg h]
      simp [ih]

/-- Claim C8: whenever `handle_player_message` reports an error, the room
it leaves behind is exactly the room it was given — every error is raised
before any state write (the one error site that Rust reaches after a
write, the `"No player"` lookup in the ready-board branch, is unreachable
because the submitting player was just found on the roster). -/
theorem no_partial_mutation_C8 (room : Room) (player_id : String) (msg : PlayerEvents)
    (room' : Room) (err : String) :
    room.handle_player_message player_id msg = (room', some err) → room' = room := by
  intro heq
  cases msg with
  | StartGame bs =>
    cases hs : room.state with
    | Lobby d => simp [Room.handle_player_message, hs] at heq
    | Game d =>
      simp [Room.handle_player_message, hs] at heq
      exact heq.1.symm
  | ReadyBoard board =>
    cases hs : room.state with
    | Lobby d =>
      simp [Room.handle_player_message, hs] at heq
      exact heq.1.symm
    | Game d =>
      cases hg : d.game_state with
      | GameRunning rd =>
        simp [Room.handle_player_message, hs, hg] at heq
        exact heq.1.symm
      | BoardCreation bc =>
        by_cases hc : player_id ∈ bc.ready
        · simp [Room.handle_player_message, hs, hg, hc] at heq
          exact heq.1.symm
        · by_cases ha : ∃ x ∈ d.players, x.player.id = player_id
          · have hanyt : (d.players.any fun p => p.player.id == player_id) = true := by
              simpa using ha
            have hne : d.players ≠ [] := by
              obtain ⟨x, hx, _⟩ := ha
              exact List.ne_nil_of_mem hx
            have hlen : (setBoardFirst d.players player_id board).length = d.players.length :=
              setBoardFirst_length _ _ _
            have hne' : setBoardFirst d.players player_id board ≠ [] := by
              intro hnil
              rw [hnil] at hlen
              exact hne (List.length_eq_zero.mp hlen.symm)
            obtain ⟨first, rest, hfr⟩ := List.exists_cons_of_ne_nil hne'
            exfalso
            by_cases hl : bc.ready.length + 1 = (setBoardFirst d.players player_id board).length
            · simp [Room.handle_player_message, hs, hg, hc, ha, hl, hfr] at heq
            · simp [Room.handle_player_message, hs, hg, hc, ha, hl] at heq
          · simp [Room.handle_player_message, hs, hg, hc, ha] at heq
            exact heq.1.symm
  | Move mov =>
    cases hs : room.state with
    | Lobby d =>
      simp [Room.handle_player_message, hs] at heq
      exact heq.1.symm
    | Game d =>
      cases hg : d.game_state with
      | BoardCreation bc =>
        simp [Room.handle_player_message, hs, hg] at heq
        exact heq.1.symm
      | GameRunning rd =>
        by_cases ht : (rd.turn == player_id) = true
        · by_cases hany : (rd.selected_numbers.any fun c => c.cell_value == mov) = true
          · simp [Room.handle_player_message, hs, hg, ht, hany] at heq
            exact heq.1.symm
          · simp [Room.handle_player_message, hs, hg, ht, hany] at heq
        · simp [Room.handle_player_message, hs, hg, ht] at heq
          exact heq.1.symm

/-- Witness for C8: a rejected move leaves the concrete room untouched. -/
theorem no_partial_mutation_C8_witness : roomRun = roomRun ∧
    roomRun.handle_player_message "b" (.Move 2) = (roomRun, some "Not your turn") := by
  constructor
  · exact no_partial_mutation_C8 roomRun "b" (.Move 2) roomRun "Not your turn" (by decide)
  · decide

/-- Claim C5 (amended): `Board::new` succeeds iff the flattened matrix is
nonempty, its number of *distinct* values equals `board_size²` (as a
wrapping `u16` product), and every value lies in `[1, board_size²]`; the
accepted board keeps the submitted matrix verbatim. The n×n shape and the
absence of duplicate entries are never checked. -/
theorem board_new_C5 (numbers : List (List Nat)) (board_size : Nat) :
    ((Board.new numbers board_size).isOk = true ↔
      (numbers.flatten ≠ [] ∧
        numbers.flatten.dedup.length = (board_size * board_size) % 65536 ∧
        ∀ v ∈ numbers.flatten, 1 ≤ v ∧ v ≤ (board_size * board_size) % 65536)) ∧
    (∀ b, Board.new numbers board_size = .ok b → b.numbers = numbers) := by
  constructor
  · constructor
    · intro hok
      unfold Board.new at hok
      by_cases hlen : numbers.flatten.dedup.length = (board_size * board_size) % 65536
      · rw [if_pos hlen] at hok
        by_cases hbad : (numbers.flatten.dedup.min?.getD 0) < 1 ∨
            (numbers.flatten.dedup.max?.getD ((board_size * board_size + 1) % 65536)) >
              (board_size * board_size) % 65536
        · rw [if_pos hbad] at hok
          simp [Except.isOk, Except.toBool] at hok
        · push_neg at hbad
          obtain ⟨hmin, hmax⟩ := hbad
          have hne : numbers.flatten.dedup ≠ [] := by
            intro hnil
            rw [hnil] at hmin
            simp at hmin
          obtain ⟨m, hm⟩ := Option.ne_none_iff_exists'.mp
            (fun hnone => hne (List.min?_eq_none_iff.mp hnone))
          obtain ⟨M, hM⟩ := Option.ne_none_iff_exists'.mp
            (fun hit => hne (List.max?_eq_none_iff.mp hit))
          obtain ⟨hmmem, hmle⟩ := List.min?_eq_some_iff'.mp hm
          obtain ⟨hMmem, hMle⟩ := List.max?_eq_some_iff'.mp hM
          rw [hm] at hmin
          rw [hM] at hmax
          simp only [Option.getD_some] at hmin hmax
          refine ⟨?_, hlen, ?_⟩
          · intro hnil
            apply hne
            rw [hnil]
            rfl
          · intro v hv
            have hv' : v ∈ numbers.flatten.dedup := List.mem_dedup.mpr hv
            exact ⟨le_trans hmin (hmle v hv'), le_trans (hMle v hv') hmax⟩
      · rw [if_neg hlen] at hok
        simp [Except.isOk, Except.toBool] at hok
    · rintro ⟨hne, hlen, hbound⟩
      have hned : numbers.flatten.dedup ≠ [] := by
        obtain ⟨v, hv⟩ := List.exists_mem_of_ne_nil _ hne
        exact List.ne_nil_of_mem (List.mem_dedup.mpr hv)
      obtain ⟨m, hm⟩ := Option.ne_none_iff_exists'.mp
        (fun hnone => hned (List.min?_eq_none_iff.mp hnone))
      obtain ⟨M, hM⟩ := Option.ne_none_iff_exists'.mp
        (fun hit => hned (List.max?_eq_none_iff.mp hit))
      obtain ⟨hmmem, _⟩ := List.min?_eq_some_iff'.mp hm
      obtain ⟨hMmem, _⟩ := List.max?_eq_some_iff'.mp hM
      have h1 : 1 ≤ m := (hbound m (List.mem_dedup.mp hmmem)).1
      have h2 : M ≤ (board_size * board_size) % 65536 :=
        (hbound M (List.mem_dedup.mp hMmem)).2
      unfold Board.new
      rw [if_pos hlen, if_neg]
      · rfl
      · rw [hm, hM]
        simp only [Option.getD_some]
        push_neg
        exact ⟨h1, h2⟩
  · intro b hb
    unfold Board.new at hb
    by_cases hlen : numbers.flatten.dedup.length = (board_size * board_size) % 65536
    · rw [if_pos hlen] at hb
      by_cases hbad : (numbers.flatten.dedup.min?.getD 0) < 1 ∨
          (numbers.flatten.dedup.max?.getD ((board_size * board_size + 1) % 65536)) >
            (board_size * board_size) % 65536
      · rw [if_pos hbad] at hb
        cases hb
      · rw [if_neg hbad] at hb
        cases hb
        rfl
    · rw [if_neg hlen] at hb
      cases hb

/-- Counterexample for C5: a single row of the nine distinct values 1–9 is
not a 3×3 grid yet `Board::new` accepts it for board size 3, and a row
with a duplicated value is accepted as well, so the claimed
"n×n grid of pairwise-distinct integers" condition is not what the code
enforces. -/
theorem board_new_C5_counterexample :
    Board.new [[1, 2, 3, 4, 5, 6, 7, 8, 9]] 3 = .ok ⟨[[1, 2, 3, 4, 5, 6, 7, 8, 9]]⟩ ∧
    ([[1, 2, 3, 4, 5, 6, 7, 8, 9]] : List (List Nat)).length ≠ 3 ∧
    Board.new [[1, 2, 2, 3, 4, 5, 6, 7, 8, 9]] 3 = .ok ⟨[[1, 2, 2, 3, 4, 5, 6, 7, 8, 9]]⟩ ∧
    ¬ ([[1, 2, 2, 3, 4, 5, 6, 7, 8, 9]] : List (List Nat)).flatten.Nodup := by
  refine ⟨by rfl, by decide, by rfl, by decide⟩

/-- Witness for C5: the amended characterisation evaluated on a genuine
2×2 board and on the rejected empty board. -/
theorem board_new_C5_witness :
    (Board.new [[1, 2], [3, 4]] 2).isOk = true ∧
    (Board.new [] 0).isOk = false := by
  constructor
  · exact (board_new_C5 [[1, 2], [3, 4]] 2).1.mpr (by decide)
  · have h := (board_new_C5 [] 0).1
    by_cases hok : (Board.new [] 0).isOk = true
    · obtain ⟨hne, _, _⟩ := h.mp hok
      exact absurd rfl hne
    · simpa using hok

/-- Claim C3 (amended): `GameData::is_game_end` of `logic.rs` satisfies the
claimed equivalence exactly — true iff the game is running and at most one
connected player holds a board scoring strictly below the board size. The
`games/bingo.rs` engine's `Bingo::is_game_end` satisfies it while the game
is running, but outside `GameRunning` it returns true iff at most one
player is connected instead of returning false. -/
theorem is_game_end_C3 :
    (∀ g : GameData, g.is_game_end = true ↔
      ∃ gr, g.game_state = GameState.GameRunning gr ∧
        (g.players.filter fun p => p.send_channel.isSome).countP
          (fun p =>
            match p.board with
            | some board => board.get_score gr.selected_numbers < g.board_size
            | none => false) ≤ 1) ∧
    (∀ (b : Bingo) (players : List GamePlayerG) gr,
      b.game_state = GameState.GameRunning gr →
      (b.is_game_end players = true ↔
        (players.filter fun p => p.send_channel.isSome).countP
          (fun p =>
            match p.data.as_bingo_player_data with
            | some d =>
              match d.board with
              | some board => board.get_score gr.selected_numbers < b.board_size
              | none => false
            | none => false) ≤ 1)) ∧
    (∀ (b : Bingo) (players : List GamePlayerG) bc,
      b.game_state = GameState.BoardCreation bc →
      (b.is_game_end players = true ↔
        players.countP (fun p => p.send_channel.isSome) ≤ 1)) := by
  refine ⟨?_, ?_, ?_⟩
  · intro g
    cases hg : g.game_state with
    | BoardCreation bc =>
      simp only [GameData.is_game_end, hg, GameState.as_game_running, gameStateAsGameRunning]
      constructor
      · intro h
        simp at h
      · rintro ⟨gr, hgr, _⟩
        cases hgr
    | GameRunning gr =>
      simp only [GameData.is_game_end, hg, GameState.as_game_running, gameStateAsGameRunning]
      constructor
      · intro h
        exact ⟨gr, rfl, by simpa using h⟩
      · rintro ⟨gr', hgr', hc⟩
        cases hgr'
        simpa using hc
  · intro b players gr hgr
    simp only [Bingo.is_game_end, hgr, GameState.as_game_running, gameStateAsGameRunning]
    simp [playerGameDataAsBingo]
  · intro b players bc hbc
    simp only [Bingo.is_game_end, hbc, GameState.as_game_running, gameStateAsGameRunning]
    simp

/-- Counterexample for C3: with the `games/bingo.rs` engine in the
board-creation state and nobody connected, `is_game_end` is already true
even though the game is not in the `GameRunning` state, so the claimed
"only if running" direction fails on `Bingo::is_game_end`. -/
theorem is_game_end_C3_counterexample :
    Bingo.is_game_end ⟨.BoardCreation ⟨[]⟩, 5⟩ [] = true ∧
    (GameState.BoardCreation ⟨[]⟩).is_game_running = false := by
  exact ⟨by decide, by decide⟩

/-- Witness for C3: the equivalences evaluated on a finished 1×1 game, a
still-contested 2×2 game, and an empty board-creation roster. -/
theorem is_game_end_C3_witness :
    gdEnd.is_game_end = true ∧
    gdRun.is_game_end = false ∧
    Bingo.is_game_end ⟨.BoardCreation ⟨[]⟩, 5⟩ [] = true := by
  refine ⟨?_, ?_, ?_⟩
  · exact (is_game_end_C3.1 gdEnd).mpr ⟨⟨"a", []⟩, rfl, by decide⟩
  · by_cases h : gdRun.is_game_end = true
    · obtain ⟨gr, hgr, hc⟩ := (is_game_end_C3.1 gdRun).mp h
      have : gr = ⟨"a", [⟨1, "a"⟩]⟩ := by
        cases hgr
        rfl
      rw [this] at hc
      exact absurd hc (by decide)
    · simpa using h
  · exact (is_game_end_C3.2.2 ⟨.BoardCreation ⟨[]⟩, 5⟩ [] ⟨[]⟩ rfl).mpr (by decide)

/-- Claim C1 (amended): when a running game reports end-of-game,
`handle_game_end` swaps the room to a Lobby whose roster holds the same
players in the same order and archives the final ranking in `last_game`;
however the channels are *retained* by the new Lobby roster (it is built
from clones taken before the clearing loop runs), and only the departing
game roster stored inside the `last_game` snapshot shows the cleared
channels. Without end-of-game, or in Lobby mode, the state is unchanged. -/
theorem handle_game_end_C1 (d : GameData) :
    (d.is_game_end = true →
      (RoomState.Game d).handle_game_end =
        RoomState.Lobby
          ⟨d.players.map fun p => ⟨p.player, p.send_channel⟩,
            some ⟨⟨d.players.map fun p => { p with send_channel := none },
                d.board_size, d.game_state⟩,
              (⟨d.players.map fun p => { p with send_channel := none },
                d.board_size, d.game_state⟩ : GameData).get_rankings⟩⟩) ∧
    (d.is_game_end = false →
      (RoomState.Game d).handle_game_end = RoomState.Game d) ∧
    (∀ l, (RoomState.Lobby l).handle_game_end = RoomState.Lobby l) := by
  refine ⟨?_, ?_, ?_⟩
  · intro h
    cases hg : d.game_state with
    | BoardCreation bc =>
      exfalso
      simp only [GameData.is_game_end, GameState.as_game_running, gameStateAsGameRunning, hg]
        at h
      exact absurd h (by decide)
    | GameRunning gr =>
      simp [RoomState.handle_game_end, h, hg, GameState.is_game_running]
  · intro h
    simp [RoomState.handle_game_end, h]
  · intro l
    rfl

/-- Counterexample for C1: in the concrete one-player finished game the
resulting Lobby roster entry still carries its channel (`some 0`), while
the claim requires the new Lobby roster to start with no attached
channels. -/
theorem handle_game_end_C1_counterexample :
    (RoomState.Game gdEnd).handle_game_end =
      RoomState.Lobby
        ⟨[⟨playerA, some 0⟩],
          some ⟨⟨[⟨playerA, some board1, none⟩], 1, .GameRunning ⟨"a", []⟩⟩,
            [⟨1, playerA⟩]⟩⟩ ∧
    (some 0 : Option Nat) ≠ none := by
  exact ⟨by rfl, by decide⟩

/-- Witness for C1: the three clauses at concrete inputs — the finished
game transitions with ranking archived, the contested game is untouched,
and a lobby is untouched. -/
theorem handle_game_end_C1_witness :
    (RoomState.Game gdEnd).handle_game_end =
      RoomState.Lobby
        ⟨gdEnd.players.map fun p => ⟨p.player, p.send_channel⟩,
          some ⟨⟨gdEnd.players.map fun p => { p with send_channel := none },
              gdEnd.board_size, gdEnd.game_state⟩,
            (⟨gdEnd.players.map fun p => { p with send_channel := none },
              gdEnd.board_size, gdEnd.game_state⟩ : GameData).get_rankings⟩⟩ ∧
    (RoomState.Game gdRun).handle_game_end = RoomState.Game gdRun := by
  constructor
  · exact (handle_game_end_C1 gdEnd).1 (by decide)
  · exact (handle_game_end_C1 gdRun).2.1 (by decide)

theorem gnt_no_eligible (b : Bingo) (players : List GamePlayerG) (gr : GameRunning)
    (hgr : b.game_state = GameState.GameRunning gr)
    (hany : players.any (bingoEligible gr.selected_numbers) = false) :
    b.get_next_turn_player players = none := by
  simp only [Bingo.get_next_turn_player, hgr, hany]
  rfl

theorem gnt_no_idx (b : Bingo) (players : List GamePlayerG) (gr : GameRunning)
    (hgr : b.game_state = GameState.GameRunning gr)
    (hidx : players.findIdx? (fun p => p.player.id == gr.turn) = none) :
    b.get_next_turn_player players = none := by
  simp only [Bingo.get_next_turn_player, hgr]
  by_cases hany : players.any (bingoEligible gr.selected_numbers) = true
  · rw [hany, hidx]
    rfl
  · rw [Bool.eq_false_iff.mpr hany]
    rfl

theorem gnt_some_idx (b : Bingo) (players : List GamePlayerG) (gr : GameRunning)
    (position : Nat) (hgr : b.game_state = GameState.GameRunning gr)
    (hany : players.any (bingoEligible gr.selected_numbers) = true)
    (hidx : players.findIdx? (fun p => p.player.id == gr.turn) = some position) :
    b.get_next_turn_player players =
      ((players.rotate (position + 1)).find? (bingoEligible gr.selected_numbers)).map
        fun p => p.player.id := by
  simp only [Bingo.get_next_turn_player, hgr]
  rw [hany, hidx]
  rfl

/-- Claim C2 (amended): while Bingo is running, `get_next_turn_player`
only ever returns the id of a roster entry that has a live channel *and a
submitted, not-yet-complete board*; when the current turn-holder occurs in
the list, a returned player is the first eligible one of the cyclic scan
starting just after the turn-holder's position; and it returns none iff
the turn-holder's id does not occur in the list or no eligible (connected,
with an incomplete board) player remains — in particular a connected
player *without* a board is skipped, not treated as eligible. -/
theorem get_next_turn_player_C2 (b : Bingo) (players : List GamePlayerG) (gr : GameRunning)
    (hgr : b.game_state = GameState.GameRunning gr) :
    (∀ pid, b.get_next_turn_player players = some pid →
      ∃ p ∈ players, p.player.id = pid ∧ bingoEligible gr.selected_numbers p = true) ∧
    (b.get_next_turn_player players = none ↔
      (players.findIdx? (fun p => p.player.id == gr.turn) = none ∨
        ∀ p ∈ players, bingoEligible gr.selected_numbers p = false)) ∧
    (∀ position, players.findIdx? (fun p => p.player.id == gr.turn) = some position →
      (∃ p ∈ players, bingoEligible gr.selected_numbers p = true) →
      b.get_next_turn_player players =
        ((players.rotate (position + 1)).find? (bingoEligible gr.selected_numbers)).map
          fun p => p.player.id) := by
  refine ⟨?_, ?_, ?_⟩
  · intro pid hsome
    by_cases hany : players.any (bingoEligible gr.selected_numbers) = true
    · cases hidx : players.findIdx? (fun p => p.player.id == gr.turn) with
      | none =>
        rw [gnt_no_idx b players gr hgr hidx] at hsome
        cases hsome
      | some position =>
        rw [gnt_some_idx b players gr position hgr hany hidx] at hsome
        cases hfind : (players.rotate (position + 1)).find?
            (bingoEligible gr.selected_numbers) with
        | none =>
          rw [hfind] at hsome
          cases hsome
        | some p =>
          rw [hfind] at hsome
          simp at hsome
          refine ⟨p, List.mem_rotate.mp (List.mem_of_find?_eq_some hfind), hsome,
            List.find?_some hfind⟩
    · rw [gnt_no_eligible b players gr hgr (Bool.eq_false_iff.mpr hany)] at hsome
      cases hsome
  · constructor
    · intro hnone
      by_cases hany : players.any (bingoEligible gr.selected_numbers) = true
      · cases hidx : players.findIdx? (fun p => p.player.id == gr.turn) with
        | none => exact Or.inl rfl
        | some position =>
          rw [gnt_some_idx b players gr position hgr hany hidx] at hnone
          cases hfind : (players.rotate (position + 1)).find?
              (bingoEligible gr.selected_numbers) with
          | none =>
            exfalso
            obtain ⟨p, hp, he⟩ := List.any_eq_true.mp hany
            exact (List.find?_eq_none.mp hfind p (List.mem_rotate.mpr hp)) he
          | some p =>
            rw [hfind] at hnone
            cases hnone
      · refine Or.inr fun p hp => ?_
        have hall := List.any_eq_false.mp (Bool.eq_false_iff.mpr hany)
        simpa using hall p hp
    · intro hcase
      cases hcase with
      | inl hidx => exact gnt_no_idx b players gr hgr hidx
      | inr hall =>
        refine gnt_no_eligible b players gr hgr (List.any_eq_false.mpr ?_)
        intro p hp
        rw [hall p hp]
        exact Bool.false_ne_true
  · intro position hidx hex
    obtain ⟨p, hp, he⟩ := hex
    exact gnt_some_idx b players gr position hgr (List.any_eq_true.mpr ⟨p, hp, he⟩) hidx

/-- Counterexample for C2: (a) a lone connected player who never submitted
a board — so no board of theirs is complete — is skipped and the scan
returns none although a connected, not-done player remains; (b) with an
eligible connected player on the roster but a turn-holder id that is not
on the roster, the scan also returns none. Both contradict the claimed
"none iff no eligible (connected, not-done) player remains". -/
theorem get_next_turn_player_C2_counterexample :
    Bingo.get_next_turn_player ⟨.GameRunning ⟨"a", []⟩, 3⟩ [gpNoBoard] = none ∧
    gpNoBoard.send_channel.isSome = true ∧
    gpNoBoard.player.id = "a" ∧
    gpNoBoard.data = .BingoPlayerData ⟨none⟩ ∧
    Bingo.get_next_turn_player ⟨.GameRunning ⟨"z", []⟩, 1⟩ [gpLive] = none ∧
    bingoEligible [] gpLive = true ∧
    (∀ p ∈ [gpLive], p.player.id ≠ "z") := by
  refine ⟨by rfl, by rfl, by rfl, by rfl, by rfl, by rfl, by decide⟩

/-- Witness for C2: on a singleton roster whose sole member holds the turn
and an incomplete board, the scan wraps around and returns that member,
who is indeed eligible. -/
theorem get_next_turn_player_C2_witness :
    Bingo.get_next_turn_player ⟨.GameRunning ⟨"b", []⟩, 1⟩ [gpLive] = some "b" ∧
    (∃ p ∈ [gpLive], p.player.id = "b" ∧ bingoEligible [] p = true) := by
  have h := get_next_turn_player_C2 ⟨.GameRunning ⟨"b", []⟩, 1⟩ [gpLive] ⟨"b", []⟩ rfl
  constructor
  · have h3 := h.2.2 0 (by rfl) ⟨gpLive, by decide, by rfl⟩
    exact h3.trans (by rfl)
  · exact h.1 "b" (by rfl)

theorem board_new_flatten_facts (numbers : List (List Nat)) (n : Nat)
    (hok : (Board.new numbers n).isOk = true) :
    numbers.flatten ≠ [] ∧ ∀ v ∈ numbers.flatten, 1 ≤ v := by
  unfold Board.new at hok
  by_cases hlen : numbers.flatten.dedup.length = (n * n) % 65536
  · rw [if_pos hlen] at hok
    by_cases hbad : (numbers.flatten.dedup.min?.getD 0) < 1 ∨
        (numbers.flatten.dedup.max?.getD ((n * n + 1) % 65536)) > (n * n) % 65536
    · rw [if_pos hbad] at hok
      simp [Except.isOk, Except.toBool] at hok
    · push_neg at hbad
      obtain ⟨hmin, _⟩ := hbad
      have hne : numbers.flatten.dedup ≠ [] := by
        intro hnil
        rw [hnil] at hmin
        simp at hmin
      obtain ⟨m, hm⟩ := Option.ne_none_iff_exists'.mp
        (fun hnone => hne (List.min?_eq_none_iff.mp hnone))
      obtain ⟨hmmem, hmle⟩ := List.min?_eq_some_iff'.mp hm
      rw [hm] at hmin
      simp only [Option.getD_some] at hmin
      constructor
      · intro hnil
        apply hne
        rw [hnil]
        rfl
      · intro v hv
        exact le_trans hmin (hmle v (List.mem_dedup.mpr hv))
  · rw [if_neg hlen] at hok
    simp [Except.isOk, Except.toBool] at hok

theorem markedCell_nil (b : Board) (i j : Nat) : b.markedCell [] i j = b.cellAt i j := by
  simp [Board.markedCell]

theorem markedCell_append_zero (b : Board) (s t : List SelectedCell) (i j : Nat)
    (h0 : b.markedCell s i j = 0) : b.markedCell (s ++ t) i j = 0 := by
  unfold Board.markedCell at h0 ⊢
  by_cases hany : (s.any fun c => c.cell_value == b.cellAt i j) = true
  · have h2 : ((s ++ t).any fun c => c.cell_value == b.cellAt i j) = true := by
      rw [List.any_append, hany]
      rfl
    rw [if_pos h2]
  · rw [if_neg hany] at h0
    by_cases h2 : ((s ++ t).any fun c => c.cell_value == b.cellAt i j) = true
    · rw [if_pos h2]
    · rw [if_neg h2]
      exact h0

theorem boardValid_cellAt (b : Board) (n : Nat) (hv : BoardValid b n) :
    1 ≤ b.numbers.length ∧
    ∀ i j, i < b.numbers.length → j < b.numbers.length → 1 ≤ b.cellAt i j := by
  obtain ⟨hok, hlen, hrows⟩ := hv
  obtain ⟨hne, hvals⟩ := board_new_flatten_facts b.numbers n hok
  constructor
  · rcases List.exists_mem_of_ne_nil _ hne with ⟨v, hvmem⟩
    obtain ⟨row, hrow, _⟩ := List.mem_flatten.mp hvmem
    exact List.length_pos.mpr (List.ne_nil_of_mem hrow)
  · intro i j hi hj
    unfold Board.cellAt
    rw [List.getD_eq_getElem _ _ hi]
    have hrl : (b.numbers[i]).length = n := hrows _ (List.getElem_mem hi)
    have hj' : j < (b.numbers[i]).length := by
      rw [hrl, ← hlen]
      exact hj
    rw [List.getD_eq_getElem _ _ hj']
    apply hvals
    exact List.mem_flatten.mpr ⟨b.numbers[i], List.getElem_mem hi, List.getElem_mem hj'⟩

/-- Claim C7: on a valid board, no called numbers means score 0; a fully
called row yields at least one point; and extending the call history never
decreases the score. -/
theorem get_score_C7 (b : Board) (n : Nat) (hv : BoardValid b n) :
    b.get_score [] = 0 ∧
    (∀ i sel, i < b.numbers.length →
      (∀ v ∈ b.numbers.getD i [], sel.any (fun c => c.cell_value == v) = true) →
      1 ≤ b.get_score sel) ∧
    (∀ s t, b.get_score s ≤ b.get_score (s ++ t)) := by
  obtain ⟨hn1, hcell⟩ := boardValid_cellAt b n hv
  have hzero : (0 : Nat) < b.numbers.length := hn1
  refine ⟨?_, ?_, ?_⟩
  · simp only [Board.get_score]
    have hrow0 : ((List.range b.numbers.length).countP fun i =>
        (List.range b.numbers.length).all fun j => b.markedCell [] i j == 0) = 0 := by
      rw [List.countP_eq_zero]
      intro i hi hall
      have h0 := List.all_eq_true.mp hall 0 (List.mem_range.mpr hzero)
      rw [markedCell_nil] at h0
      have hge := hcell i 0 (List.mem_range.mp hi) hzero
      simp at h0
      omega
    have hcol0 : ((List.range b.numbers.length).countP fun j =>
        (List.range b.numbers.length).all fun i => b.markedCell [] i j == 0) = 0 := by
      rw [List.countP_eq_zero]
      intro j hj hall
      have h0 := List.all_eq_true.mp hall 0 (List.mem_range.mpr hzero)
      rw [markedCell_nil] at h0
      have hge := hcell 0 j hzero (List.mem_range.mp hj)
      simp at h0
      omega
    have hd1 : ¬ ((List.range b.numbers.length).all fun i =>
        b.markedCell [] i i == 0) = true := by
      intro hall
      have h0 := List.all_eq_true.mp hall 0 (List.mem_range.mpr hzero)
      rw [markedCell_nil] at h0
      have hge := hcell 0 0 hzero hzero
      simp at h0
      omega
    have hd2 : ¬ ((List.range b.numbers.length).all fun i =>
        b.markedCell [] i (b.numbers.length - 1 - i) == 0) = true := by
      intro hall
      have h0 := List.all_eq_true.mp hall 0 (List.mem_range.mpr hzero)
      rw [markedCell_nil] at h0
      have hge := hcell 0 (b.numbers.length - 1) hzero (by omega)
      simp at h0
      omega
    rw [hrow0, hcol0, if_neg hd1, if_neg hd2]
  · intro i sel hi hsel
    have hN : b.numbers.length = n := hv.2.1
    have hrl : (b.numbers.getD i []).length = n := by
      rw [List.getD_eq_getElem _ _ hi]
      exact hv.2.2 _ (List.getElem_mem hi)
    have hrowP : 0 < ((List.range b.numbers.length).countP fun i2 =>
        (List.range b.numbers.length).all fun j => b.markedCell sel i2 j == 0) := by
      refine List.countP_pos_iff.mpr ⟨i, List.mem_range.mpr hi, ?_⟩
      refine List.all_eq_true.mpr ?_
      intro j hj
      have hj' : j < (b.numbers.getD i []).length := by
        rw [hrl, ← hN]
        exact List.mem_range.mp hj
      have hmem : b.cellAt i j ∈ b.numbers.getD i [] := by
        unfold Board.cellAt
        rw [List.getD_eq_getElem _ _ hj']
        exact List.getElem_mem hj'
      have hs := hsel _ hmem
      unfold Board.markedCell
      rw [if_pos hs]
      rfl
    simp only [Board.get_score]
    have h1 : 1 ≤ ((List.range b.numbers.length).countP fun i2 =>
        (List.range b.numbers.length).all fun j => b.markedCell sel i2 j == 0) := hrowP
    omega
  · intro s t
    have hmono : ∀ i j, (b.markedCell s i j == 0) = true →
        (b.markedCell (s ++ t) i j == 0) = true := by
      intro i j h
      simp only [beq_iff_eq] at h ⊢
      exact markedCell_append_zero b s t i j h
    have hrows : ((List.range b.numbers.length).countP fun i =>
          (List.range b.numbers.length).all fun j => b.markedCell s i j == 0) ≤
        ((List.range b.numbers.length).countP fun i =>
          (List.range b.numbers.length).all fun j => b.markedCell (s ++ t) i j == 0) := by
      refine List.countP_mono_left ?_
      intro i _ hall
      refine List.all_eq_true.mpr ?_
      intro j hj
      exact hmono i j (List.all_eq_true.mp hall j hj)
    have hcols : ((List.range b.numbers.length).countP fun j =>
          (List.range b.numbers.length).all fun i => b.markedCell s i j == 0) ≤
        ((List.range b.numbers.length).countP fun j =>
          (List.range b.numbers.length).all fun i => b.markedCell (s ++ t) i j == 0) := by
      refine List.countP_mono_left ?_
      intro j _ hall
      refine List.all_eq_true.mpr ?_
      intro i hi
      exact hmono i j (List.all_eq_true.mp hall i hi)
    have hd1 : (if ((List.range b.numbers.length).all fun i => b.markedCell s i i == 0) then
          (1 : Nat) else 0) ≤
        (if ((List.range b.numbers.length).all fun i => b.markedCell (s ++ t) i i == 0) then
          (1 : Nat) else 0) := by
      by_cases h : ((List.range b.numbers.length).all fun i => b.markedCell s i i == 0) = true
      · have h2 : ((List.range b.numbers.length).all fun i =>
            b.markedCell (s ++ t) i i == 0) = true := by
          refine List.all_eq_true.mpr ?_
          intro i hi
          exact hmono i i (List.all_eq_true.mp h i hi)
        rw [if_pos h, if_pos h2]
      · rw [if_neg h]
        omega
    have hd2 : (if ((List.range b.numbers.length).all fun i =>
          b.markedCell s i (b.numbers.length - 1 - i) == 0) then (1 : Nat) else 0) ≤
        (if ((List.range b.numbers.length).all fun i =>
          b.markedCell (s ++ t) i (b.numbers.length - 1 - i) == 0) then (1 : Nat) else 0) := by
      by_cases h : ((List.range b.numbers.length).all fun i =>
          b.markedCell s i (b.numbers.length - 1 - i) == 0) = true
      · have h2 : ((List.range b.numbers.length).all fun i =>
            b.markedCell (s ++ t) i (b.numbers.length - 1 - i) == 0) = true := by
          refine List.all_eq_true.mpr ?_
          intro i hi
          exact hmono i _ (List.all_eq_true.mp h i hi)
        rw [if_pos h, if_pos h2]
      · rw [if_neg h]
        omega
    simp only [Board.get_score]
    omega

/-- Witness for C7: the 2×2 board `[[1,2],[3,4]]`: empty history scores 0,
calling the whole first row scores 1 (≥ 1), and extending `[1]` by `[2]`
raises the score from 0 to 1. -/
theorem get_score_C7_witness :
    board2a.get_score [] = 0 ∧
    1 ≤ board2a.get_score [⟨1, "a"⟩, ⟨2, "b"⟩] ∧
    board2a.get_score [⟨1, "a"⟩] ≤ board2a.get_score ([⟨1, "a"⟩] ++ [⟨2, "b"⟩]) := by
  have h := get_score_C7 board2a 2 (by decide)
  exact ⟨h.1, h.2.1 0 [⟨1, "a"⟩, ⟨2, "b"⟩] (by decide) (by decide),
    h.2.2 [⟨1, "a"⟩] [⟨2, "b"⟩]⟩

theorem is_game_end_false_of_board_creation (d : GameData) (bc : BoardCreation)
    (hg : d.game_state = GameState.BoardCreation bc) : d.is_game_end = false := by
  simp only [GameData.is_game_end, GameState.as_game_running, gameStateAsGameRunning, hg]

theorem handle_game_end_board_creation (d : GameData) (bc : BoardCreation)
    (hg : d.game_state = GameState.BoardCreation bc) :
    (RoomState.Game d).handle_game_end = RoomState.Game d := by
  simp only [RoomState.handle_game_end]
  rw [if_neg]
  rw [is_game_end_false_of_board_creation d bc hg]
  exact Bool.false_ne_true

theorem handle_game_end_cases (d : GameData) :
    (RoomState.Game d).handle_game_end = RoomState.Game d ∨
    ∃ ld, (RoomState.Game d).handle_game_end = RoomState.Lobby ld := by
  simp only [RoomState.handle_game_end]
  by_cases h : d.is_game_end = true
  · right
    exact ⟨_, by rw [if_pos h]⟩
  · left
    rw [if_neg h]

theorem ct_no_eligible (g : GameData) (rd : GameRunning)
    (hg : g.game_state = GameState.GameRunning rd)
    (hany : g.players.any (turnEligible rd.selected_numbers) = false) :
    g.change_turn = g := by
  simp only [GameData.change_turn, hg, hany]
  rfl

theorem ct_no_idx (g : GameData) (rd : GameRunning)
    (hg : g.game_state = GameState.GameRunning rd)
    (hidx : g.players.findIdx? (fun p => p.player.id == rd.turn) = none) :
    g.change_turn = g := by
  simp only [GameData.change_turn, hg]
  by_cases hany : g.players.any (turnEligible rd.selected_numbers) = true
  · rw [hany, hidx]
    rfl
  · rw [Bool.eq_false_iff.mpr hany]
    rfl

theorem ct_found (g : GameData) (rd : GameRunning) (position : Nat) (p : GamePlayer)
    (hg : g.game_state = GameState.GameRunning rd)
    (hany : g.players.any (turnEligible rd.selected_numbers) = true)
    (hidx : g.players.findIdx? (fun p => p.player.id == rd.turn) = some position)
    (hfind : (g.players.rotate (position + 1)).find? (turnEligible rd.selected_numbers) =
      some p) :
    g.change_turn = { g with game_state := .GameRunning { rd with turn := p.player.id } } := by
  simp only [GameData.change_turn, hg]
  rw [hany, hidx]
  simp only [Bool.not_true, Bool.false_eq_true, if_false]
  rw [hfind]

theorem ct_not_found (g : GameData) (rd : GameRunning) (position : Nat)
    (hg : g.game_state = GameState.GameRunning rd)
    (hany : g.players.any (turnEligible rd.selected_numbers) = true)
    (hidx : g.players.findIdx? (fun p => p.player.id == rd.turn) = some position)
    (hfind : (g.players.rotate (position + 1)).find? (turnEligible rd.selected_numbers) =
      none) :
    g.change_turn = g := by
  simp only [GameData.change_turn, hg]
  rw [hany, hidx]
  simp only [Bool.not_true, Bool.false_eq_true, if_false]
  rw [hfind]

theorem change_turn_shape (g : GameData) (rd : GameRunning)
    (hg : g.game_state = GameState.GameRunning rd) :
    ∃ t2, g.change_turn = { g with game_state := .GameRunning ⟨t2, rd.selected_numbers⟩ } := by
  have hself : g = { g with game_state := .GameRunning ⟨rd.turn, rd.selected_numbers⟩ } := by
    have h2 : (GameState.GameRunning ⟨rd.turn, rd.selected_numbers⟩) = g.game_state := by
      rw [hg]
    rw [h2]
  by_cases hany : g.players.any (turnEligible rd.selected_numbers) = true
  · cases hidx : g.players.findIdx? (fun p => p.player.id == rd.turn) with
    | none => exact ⟨rd.turn, by rw [ct_no_idx g rd hg hidx]; exact hself⟩
    | some position =>
      cases hfind : (g.players.rotate (position + 1)).find?
          (turnEligible rd.selected_numbers) with
      | none => exact ⟨rd.turn, by rw [ct_not_found g rd position hg hany hidx hfind]; exact hself⟩
      | some p => exact ⟨p.player.id, ct_found g rd position p hg hany hidx hfind⟩
  · exact ⟨rd.turn, by rw [ct_no_eligible g rd hg (Bool.eq_false_iff.mpr hany)]; exact hself⟩

theorem selectedOf_handle_game_end (idr : String) (d : GameData) (rd : GameRunning)
    (hg : d.game_state = GameState.GameRunning rd) :
    selectedOf ⟨idr, (RoomState.Game d).handle_game_end⟩ = some rd.selected_numbers := by
  simp only [RoomState.handle_game_end]
  by_cases hend : d.is_game_end = true
  · rw [if_pos hend]
    simp [selectedOf, hg, GameState.is_game_running]
  · rw [if_neg hend]
    simp [selectedOf, hg]

theorem hpm_start_success (room : Room) (pid : String) (bs : Nat) (l : LobbyData)
    (hs : room.state = RoomState.Lobby l) :
    room.handle_player_message pid (.StartGame bs) =
      ({ room with state := (RoomState.Game
          ⟨l.players.map fun p => ⟨p.player, none, p.send_channel⟩, bs,
            .BoardCreation ⟨[]⟩⟩) }, none) := by
  simp only [Room.handle_player_message, hs]
  rw [handle_game_end_board_creation _ ⟨[]⟩ rfl]

theorem hpm_ready_still_waiting (room : Room) (pid : String) (board : Board)
    (d0 : GameData) (bc : BoardCreation)
    (hs : room.state = RoomState.Game d0) (hg : d0.game_state = GameState.BoardCreation bc)
    (hc : bc.ready.contains pid = false)
    (ha : (d0.players.any fun p => p.player.id == pid) = true)
    (hl : ¬ (bc.ready ++ [pid]).length = (setBoardFirst d0.players pid board).length) :
    room.handle_player_message pid (.ReadyBoard board) =
      ({ room with state := (RoomState.Game
          ⟨setBoardFirst d0.players pid board, d0.board_size,
            .BoardCreation ⟨bc.ready ++ [pid]⟩⟩).handle_game_end }, none) := by
  simp only [Room.handle_player_message, hs, hg]
  rw [if_neg (by rw [hc]; exact Bool.false_ne_true), if_pos ha, if_neg hl]

theorem hpm_ready_to_running (room : Room) (pid : String) (board : Board)
    (d0 : GameData) (bc : BoardCreation) (first : GamePlayer)
    (hs : room.state = RoomState.Game d0) (hg : d0.game_state = GameState.BoardCreation bc)
    (hc : bc.ready.contains pid = false)
    (ha : (d0.players.any fun p => p.player.id == pid) = true)
    (hl : (bc.ready ++ [pid]).length = (setBoardFirst d0.players pid board).length)
    (hh : (setBoardFirst d0.players pid board).head? = some first) :
    room.handle_player_message pid (.ReadyBoard board) =
      ({ room with state := (RoomState.Game
          ⟨setBoardFirst d0.players pid board, d0.board_size,
            .GameRunning ⟨first.player.id, []⟩⟩).handle_game_end }, none) := by
  simp only [Room.handle_player_message, hs, hg]
  rw [if_neg (by rw [hc]; exact Bool.false_ne_true), if_pos ha, if_pos hl, hh]

theorem hpm_move_success (room : Room) (pid : String) (mov : Nat)
    (d0 : GameData) (rd0 : GameRunning)
    (hs : room.state = RoomState.Game d0) (hg : d0.game_state = GameState.GameRunning rd0)
    (ht : (rd0.turn == pid) = true)
    (hany : (rd0.selected_numbers.any fun c => c.cell_value == mov) = false) :
    room.handle_player_message pid (.Move mov) =
      ({ room with state := (RoomState.Game
          (GameData.change_turn
            ⟨d0.players, d0.board_size,
              .GameRunning ⟨rd0.turn, rd0.selected_numbers ++ [⟨mov, pid⟩]⟩⟩)).handle_game_end },
        none) := by
  simp only [Room.handle_player_message, hs, hg]
  rw [if_pos ht, if_neg (by rw [hany]; exact Bool.false_ne_true)]

theorem step_preserves_nodup (r r' : Room) (hstep : Step r r')
    (hinv : ∀ d rd, r.state = RoomState.Game d → d.game_state = GameState.GameRunning rd →
      (rd.selected_numbers.map fun c => c.cell_value).Nodup) :
    ∀ d rd, r'.state = RoomState.Game d → d.game_state = GameState.GameRunning rd →
      (rd.selected_numbers.map fun c => c.cell_value).Nodup := by
  obtain ⟨pid, msg, heq⟩ := hstep
  intro d rd hd hrd
  cases msg with
  | StartGame bs =>
    cases hs : r.state with
    | Game d0 =>
      simp [Room.handle_player_message, hs] at heq
    | Lobby l =>
      rw [hpm_start_success r pid bs l hs] at heq
      have hr' : r'.state = RoomState.Game
          ⟨l.players.map fun p => ⟨p.player, none, p.send_channel⟩, bs, .BoardCreation ⟨[]⟩⟩ := by
        have := congrArg (fun q : Room × Option String => q.1.state) heq
        simpa using this.symm
      rw [hr'] at hd
      injection hd with hd2
      rw [← hd2] at hrd
      simp at hrd
  | ReadyBoard board =>
    cases hs : r.state with
    | Lobby l => simp [Room.handle_player_message, hs] at heq
    | Game d0 =>
      cases hg : d0.game_state with
      | GameRunning rd0 => simp [Room.handle_player_message, hs, hg] at heq
      | BoardCreation bc =>
        by_cases hc : pid ∈ bc.ready
        · simp [Room.handle_player_message, hs, hg, hc] at heq
        · have hcB : bc.ready.contains pid = false := by simpa using hc
          by_cases ha : ∃ x ∈ d0.players, x.player.id = pid
          · have haB : (d0.players.any fun p => p.player.id == pid) = true := by
              simpa using ha
            by_cases hl : (bc.ready ++ [pid]).length =
                (setBoardFirst d0.players pid board).length
            · cases hh : (setBoardFirst d0.players pid board).head? with
              | none =>
                have hne : setBoardFirst d0.players pid board ≠ [] := by
                  intro hnil
                  obtain ⟨x, hx, _⟩ := ha
                  have := setBoardFirst_length d0.players pid board
                  rw [hnil] at this
                  exact List.ne_nil_of_mem hx (List.length_eq_zero.mp this.symm)
                obtain ⟨f1, r1, hfr⟩ := List.exists_cons_of_ne_nil hne
                rw [hfr] at hh
                cases hh
              | some first =>
                rw [hpm_ready_to_running r pid board d0 bc first hs hg hcB haB hl hh] at heq
                have hr' : r'.state = (RoomState.Game
                    ⟨setBoardFirst d0.players pid board, d0.board_size,
                      .GameRunning ⟨first.player.id, []⟩⟩).handle_game_end := by
                  have := congrArg (fun q : Room × Option String => q.1.state) heq
                  simpa using this.symm
                rcases handle_game_end_cases
                    ⟨setBoardFirst d0.players pid board, d0.board_size,
                      .GameRunning ⟨first.player.id, []⟩⟩ with hcase | ⟨ld, hcase⟩
                · rw [hcase] at hr'
                  rw [hr'] at hd
                  injection hd with hd2
                  rw [← hd2] at hrd
                  simp only at hrd
                  injection hrd with hrd2
                  rw [← hrd2]
                  simp
                · rw [hcase] at hr'
                  rw [hr'] at hd
                  cases hd
            · rw [hpm_ready_still_waiting r pid board d0 bc hs hg hcB haB hl] at heq
              have hr' : r'.state = (RoomState.Game
                  ⟨setBoardFirst d0.players pid board, d0.board_size,
                    .BoardCreation ⟨bc.ready ++ [pid]⟩⟩).handle_game_end := by
                have := congrArg (fun q : Room × Option String => q.1.state) heq
                simpa using this.symm
              rw [handle_game_end_board_creation _ ⟨bc.ready ++ [pid]⟩ rfl] at hr'
              rw [hr'] at hd
              injection hd with hd2
              rw [← hd2] at hrd
              simp at hrd
          · simp [Room.handle_player_message, hs, hg, hc, ha] at heq
  | Move mov =>
    cases hs : r.state with
    | Lobby l => simp [Room.handle_player_message, hs] at heq
    | Game d0 =>
      cases hg : d0.game_state with
      | BoardCreation bc => simp [Room.handle_player_message, hs, hg] at heq
      | GameRunning rd0 =>
        by_cases ht : (rd0.turn == pid) = true
        · by_cases hany : (rd0.selected_numbers.any fun c => c.cell_value == mov) = true
          · simp [Room.handle_player_message, hs, hg, ht, hany] at heq
          · have hanyF : (rd0.selected_numbers.any fun c => c.cell_value == mov) = false := by
              simpa using hany
            rw [hpm_move_success r pid mov d0 rd0 hs hg ht hanyF] at heq
            obtain ⟨t2, hshape⟩ := change_turn_shape
              ⟨d0.players, d0.board_size,
                .GameRunning ⟨rd0.turn, rd0.selected_numbers ++ [⟨mov, pid⟩]⟩⟩
              ⟨rd0.turn, rd0.selected_numbers ++ [⟨mov, pid⟩]⟩ rfl
            rw [hshape] at heq
            have hr' : r'.state = (RoomState.Game
                ⟨d0.players, d0.board_size,
                  .GameRunning ⟨t2, rd0.selected_numbers ++ [⟨mov, pid⟩]⟩⟩).handle_game_end := by
              have := congrArg (fun q : Room × Option String => q.1.state) heq
              simpa using this.symm
            rcases handle_game_end_cases
                ⟨d0.players, d0.board_size,
                  .GameRunning ⟨t2, rd0.selected_numbers ++ [⟨mov, pid⟩]⟩⟩ with hcase | ⟨ld, hcase⟩
            · rw [hcase] at hr'
              rw [hr'] at hd
              injection hd with hd2
              rw [← hd2] at hrd
              simp only at hrd
              injection hrd with hrd2
              rw [← hrd2]
              have hold := hinv d0 rd0 hs hg
              have hnotin : ∀ c ∈ rd0.selected_numbers, ¬ c.cell_value = mov := by
                intro c hcmem hceq
                apply hany
                exact List.any_eq_true.mpr ⟨c, hcmem, by simp [hceq]⟩
              rw [List.map_append, List.nodup_append]
              refine ⟨hold, by simp, ?_⟩
              intro v hv
              simp only [List.mem_map] at hv
              obtain ⟨c, hcmem, hcv⟩ := hv
              simp only [List.map_cons, List.map_nil, List.mem_singleton]
              intro hveq
              exact hnotin c hcmem (hcv.trans hveq)
            · rw [hcase] at hr'
              rw [hr'] at hd
              cases hd
        · simp [Room.handle_player_message, hs, hg, ht] at heq

theorem selectedOf_after_move (idr : String) (players : List GamePlayer) (bs : Nat)
    (turn : String) (sel : List SelectedCell) :
    selectedOf ⟨idr, (RoomState.Game (GameData.change_turn
      ⟨players, bs, .GameRunning ⟨turn, sel⟩⟩)).handle_game_end⟩ = some sel := by
  obtain ⟨t2, hshape⟩ := change_turn_shape ⟨players, bs, .GameRunning ⟨turn, sel⟩⟩
    ⟨turn, sel⟩ rfl
  rw [hshape]
  apply selectedOf_handle_game_end idr _ ⟨t2, sel⟩
  rfl

set_option maxHeartbeats 1000000 in
/-- Claim C10: from a freshly started game, in every room state reachable
through successful `handle_player_message` calls the recorded cell values
of `selected_numbers` are pairwise distinct while the game is running; and
every successful Move comes from the turn-holder and extends the selected
numbers by exactly one entry claimed by the submitter (the extended
history is visible either in the still-running game or in the `last_game`
archive when the move ended the game). -/
theorem selected_numbers_C10 :
    (∀ (room r0 : Room) (pid : String) (bs : Nat) (l : LobbyData),
      room.state = RoomState.Lobby l →
      room.handle_player_message pid (.StartGame bs) = (r0, none) →
      ∀ r, Relation.ReflTransGen Step r0 r →
      ∀ d rd, r.state = RoomState.Game d → d.game_state = GameState.GameRunning rd →
        (rd.selected_numbers.map fun c => c.cell_value).Nodup) ∧
    (∀ (room : Room) (d : GameData) (rd : GameRunning) (pid : String) (mov : Nat) (r' : Room),
      room.state = RoomState.Game d → d.game_state = GameState.GameRunning rd →
      room.handle_player_message pid (.Move mov) = (r', none) →
      rd.turn = pid ∧ selectedOf r' = some (rd.selected_numbers ++ [⟨mov, pid⟩])) := by
  constructor
  · intro room r0 pid bs l hl heq r hreach
    rw [hpm_start_success room pid bs l hl] at heq
    have hr0 : r0.state = RoomState.Game
        ⟨l.players.map fun p => ⟨p.player, none, p.send_channel⟩, bs, .BoardCreation ⟨[]⟩⟩ := by
      injection heq with h1 h2
      rw [← h1]
    have hbase : ∀ d rd, r0.state = RoomState.Game d →
        d.game_state = GameState.GameRunning rd →
        (rd.selected_numbers.map fun c => c.cell_value).Nodup := by
      intro d rd hd hrd
      rw [hr0] at hd
      injection hd with hd2
      rw [← hd2] at hrd
      simp at hrd
    induction hreach with
    | refl => exact hbase
    | tail h1 hstep ih => exact step_preserves_nodup _ _ hstep ih
  · intro room d rd pid mov r' hd hrd heq
    by_cases ht : (rd.turn == pid) = true
    · by_cases hany : (rd.selected_numbers.any fun c => c.cell_value == mov) = true
      · simp [Room.handle_player_message, hd, hrd, ht, hany] at heq
      · have hanyF : (rd.selected_numbers.any fun c => c.cell_value == mov) = false := by
          simpa using hany
        rw [hpm_move_success room pid mov d rd hd hrd ht hanyF] at heq
        injection heq with h1 h2
        refine ⟨by simpa using ht, ?_⟩
        have hfin := selectedOf_after_move room.id d.players d.board_size rd.turn
          (rd.selected_numbers ++ [⟨mov, pid⟩])
        rw [h1] at hfin
        exact hfin
    · simp [Room.handle_player_message, hd, hrd, ht] at heq

set_option maxHeartbeats 1000000 in
/-- Witness for C10: the concrete two-player 2×2 run
lobby → start → ready×2 → move 1 by a → move 2 by b; the reachable running
state has distinct selected values, and the second move extends the
history by exactly `(2, "b")`. -/
theorem selected_numbers_C10_witness :
    (([⟨1, "a"⟩, ⟨2, "b"⟩] : List SelectedCell).map fun c => c.cell_value).Nodup ∧
    (⟨"b", [⟨1, "a"⟩]⟩ : GameRunning).turn = "b" ∧
    selectedOf rMove2 = some ([⟨1, "a"⟩] ++ [⟨2, "b"⟩]) := by
  have s1 : Step rFresh rReadyA := ⟨"a", PlayerEvents.ReadyBoard board2a, by decide⟩
  have s2 : Step rReadyA rReadyB := ⟨"b", PlayerEvents.ReadyBoard board2b, by decide⟩
  have s3 : Step rReadyB rMove1 := ⟨"a", PlayerEvents.Move 1, by decide⟩
  have s4 : Step rMove1 rMove2 := ⟨"b", PlayerEvents.Move 2, by decide⟩
  have hchain : Relation.ReflTransGen Step rFresh rMove2 :=
    Relation.ReflTransGen.head s1
      (Relation.ReflTransGen.head s2
        (Relation.ReflTransGen.head s3
          (Relation.ReflTransGen.head s4 Relation.ReflTransGen.refl)))
  have h1 := selected_numbers_C10.1 lobbyTwo rFresh "a" 2
    ⟨[⟨playerA, some 0⟩, ⟨playerB, some 1⟩], none⟩ rfl (by decide) rMove2 hchain
    ⟨[⟨playerA, some board2a, some 0⟩, ⟨playerB, some board2b, some 1⟩], 2,
      .GameRunning ⟨"a", [⟨1, "a"⟩, ⟨2, "b"⟩]⟩⟩
    ⟨"a", [⟨1, "a"⟩, ⟨2, "b"⟩]⟩ (by rfl) rfl
  have h2 := selected_numbers_C10.2 rMove1
    ⟨[⟨playerA, some board2a, some 0⟩, ⟨playerB, some board2b, some 1⟩], 2,
      .GameRunning ⟨"b", [⟨1, "a"⟩]⟩⟩
    ⟨"b", [⟨1, "a"⟩]⟩ "b" 2 rMove2 (by rfl) rfl (by decide)
  exact ⟨h1, h2.1, h2.2⟩

instance : IsTotal ((Nat × Nat) × Player) rankEntryLe :=
  ⟨by intro a b; unfold rankEntryLe rankKeyLe; omega⟩

instance : IsTrans ((Nat × Nat) × Player) rankEntryLe :=
  ⟨by intro a b c; unfold rankEntryLe rankKeyLe; omega⟩

theorem rankKeyLe_antisymm (a b : Nat × Nat) (h1 : rankKeyLe a b) (h2 : rankKeyLe b a) :
    a = b := by
  unfold rankKeyLe at h1 h2
  rw [Prod.ext_iff]
  omega

theorem rankKeyFold_succ (f : Nat → Nat) (m : Nat) :
    rankKeyFold f (m + 1) =
      (if (rankKeyFold f m).1 < f m then (f m, m) else rankKeyFold f m) := by
  unfold rankKeyFold
  rw [List.range_succ, List.foldl_append]
  rfl

theorem rankKeyFold_spec (f : Nat → Nat) (m : Nat) :
    (∀ l, l < m → f l ≤ (rankKeyFold f m).1) ∧
    ((rankKeyFold f m).1 ≠ 0 →
      (rankKeyFold f m).2 < m ∧ f (rankKeyFold f m).2 = (rankKeyFold f m).1 ∧
      ∀ j, j < (rankKeyFold f m).2 → f j < (rankKeyFold f m).1) ∧
    ((rankKeyFold f m).1 = 0 → (rankKeyFold f m).2 = 0) := by
  induction m with
  | zero =>
    refine ⟨fun l hl => absurd hl (by omega), fun h => absurd rfl h, fun _ => rfl⟩
  | succ m ih =>
    obtain ⟨ih1, ih2, ih3⟩ := ih
    rw [rankKeyFold_succ]
    by_cases hlt : (rankKeyFold f m).1 < f m
    · rw [if_pos hlt]
      refine ⟨?_, ?_, ?_⟩
      · intro l hl
        rcases Nat.lt_succ_iff_lt_or_eq.mp hl with hl' | hl'
        · exact le_trans (ih1 l hl') (le_of_lt hlt)
        · simp [hl']
      · intro _
        refine ⟨by omega, rfl, ?_⟩
        intro j hj
        exact lt_of_le_of_lt (ih1 j hj) hlt
      · intro h0
        simp only at h0
        omega
    · rw [if_neg hlt]
      refine ⟨?_, ?_, ih3⟩
      · intro l hl
        rcases Nat.lt_succ_iff_lt_or_eq.mp hl with hl' | hl'
        · exact ih1 l hl'
        · rw [hl']
          omega
      · intro hne
        obtain ⟨hb, hf, hj⟩ := ih2 hne
        exact ⟨by omega, hf, hj⟩

theorem assignRanks_length (last : Option (Nat × Nat)) (r : Nat)
    (L : List ((Nat × Nat) × Player)) : (assignRanks last r L).length = L.length := by
  induction L generalizing last r with
  | nil => rfl
  | cons e rest ih => simp [assignRanks, ih]

theorem assignRanks_player (last : Option (Nat × Nat)) (r : Nat)
    (L : List ((Nat × Nat) × Player)) :
    ∀ i, i < L.length →
      ((assignRanks last r L).getD i ⟨0, playerA⟩).player = (L.getD i ((0, 0), playerA)).2 := by
  induction L generalizing last r with
  | nil => intro i hi; cases hi
  | cons e rest ih =>
    intro i hi
    cases i with
    | zero => rfl
    | succ i' =>
      simp only [assignRanks, List.getD_cons_succ]
      exact ih _ _ i' (by simpa using hi)

theorem rank_incr_iff (k e1 : Nat × Nat) (h : rankKeyLe k e1) :
    (e1.1 < k.1 ∨ k.2 < e1.2) ↔ ¬ e1 = k := by
  unfold rankKeyLe at h
  rw [Prod.ext_iff]
  omega

theorem rankKeyLe_refl (a : Nat × Nat) : rankKeyLe a a := by
  unfold rankKeyLe
  omega

theorem assignRanks_cons_some (k : Nat × Nat) (r : Nat) (e : (Nat × Nat) × Player)
    (rest : List ((Nat × Nat) × Player)) :
    assignRanks (some k) r (e :: rest) =
      ⟨if e.1.1 < k.1 ∨ k.2 < e.1.2 then r + 1 else r, e.2⟩ ::
        assignRanks (some e.1) (if e.1.1 < k.1 ∨ k.2 < e.1.2 then r + 1 else r) rest := rfl

theorem assignRanks_cons_none (r : Nat) (e : (Nat × Nat) × Player)
    (rest : List ((Nat × Nat) × Player)) :
    assignRanks none r (e :: rest) = ⟨r + 1, e.2⟩ :: assignRanks (some e.1) (r + 1) rest := rfl

theorem assignRanks_none_eq (e : (Nat × Nat) × Player) (rest : List ((Nat × Nat) × Player)) :
    assignRanks none 0 (e :: rest) = assignRanks (some e.1) 1 (e :: rest) := by
  rw [assignRanks_cons_none, assignRanks_cons_some]
  have h : (if e.1.1 < e.1.1 ∨ e.1.2 < e.1.2 then 0 + 1 + 1 else 0 + 1) = 0 + 1 := by
    rw [if_neg]
    omega
  rw [h]

theorem assignRanks_chain (k : Nat × Nat) (r : Nat) (L : List ((Nat × Nat) × Player))
    (hdom : ∀ e ∈ L, rankKeyLe k e.1)
    (hsorted : L.Pairwise rankEntryLe) :
    ∀ j, j < L.length →
      r ≤ ((assignRanks (some k) r L).getD j ⟨0, playerA⟩).rank ∧
      (((assignRanks (some k) r L).getD j ⟨0, playerA⟩).rank = r ↔
        (L.getD j ((0, 0), playerA)).1 = k) := by
  induction L generalizing k r with
  | nil => intro j hj; cases hj
  | cons e rest ih =>
    intro j hj
    have hke : rankKeyLe k e.1 := hdom e (List.mem_cons_self _ _)
    have hdomr : ∀ x ∈ rest, rankKeyLe e.1 x.1 := by
      intro x hx
      have := (List.pairwise_cons.mp hsorted).1 x hx
      exact this
    have hsr : rest.Pairwise rankEntryLe := (List.pairwise_cons.mp hsorted).2
    rw [assignRanks_cons_some]
    cases j with
    | zero =>
      simp only [List.getD_cons_zero]
      by_cases hek : e.1 = k
      · rw [if_neg (by rw [rank_incr_iff k e.1 hke]; simpa using hek)]
        exact ⟨le_refl r, by simp [hek]⟩
      · rw [if_pos ((rank_incr_iff k e.1 hke).mpr hek)]
        constructor
        · omega
        · constructor
          · intro h
            omega
          · intro h
            exact absurd h hek
    | succ j' =>
      have hj' : j' < rest.length := by
        simpa using Nat.lt_of_succ_lt_succ hj
      simp only [List.getD_cons_succ]
      by_cases hek : e.1 = k
      · rw [if_neg (by rw [rank_incr_iff k e.1 hke]; simpa using hek)]
        have IH := ih e.1 r hdomr hsr j' hj'
        refine ⟨IH.1, ?_⟩
        rw [IH.2, hek]
      · rw [if_pos ((rank_incr_iff k e.1 hke).mpr hek)]
        have IH := ih e.1 (r + 1) hdomr hsr j' hj'
        have hge := IH.1
        constructor
        · omega
        · constructor
          · intro h
            omega
          · intro h
            exfalso
            have hmem : rest.getD j' ((0, 0), playerA) ∈ rest := by
              rw [List.getD_eq_getElem _ _ hj']
              exact List.getElem_mem hj'
            have h1 := hdomr _ hmem
            rw [h] at h1
            exact hek (rankKeyLe_antisymm e.1 k h1 hke)

theorem assignRanks_iff_some (k : Nat × Nat) (r : Nat) (L : List ((Nat × Nat) × Player))
    (hdom : ∀ e ∈ L, rankKeyLe k e.1) (hsorted : L.Pairwise rankEntryLe) :
    ∀ i j, i < L.length → j < L.length →
      (((assignRanks (some k) r L).getD i ⟨0, playerA⟩).rank =
          ((assignRanks (some k) r L).getD j ⟨0, playerA⟩).rank ↔
        (L.getD i ((0, 0), playerA)).1 = (L.getD j ((0, 0), playerA)).1) := by
  induction L generalizing k r with
  | nil => intro i j hi _; cases hi
  | cons e rest ih =>
    intro i j hi hj
    have hke : rankKeyLe k e.1 := hdom e (List.mem_cons_self _ _)
    have hdomr : ∀ x ∈ rest, rankKeyLe e.1 x.1 := by
      intro x hx
      exact (List.pairwise_cons.mp hsorted).1 x hx
    have hsr : rest.Pairwise rankEntryLe := (List.pairwise_cons.mp hsorted).2
    rw [assignRanks_cons_some]
    cases i with
    | zero =>
      cases j with
      | zero => simp
      | succ j' =>
        have hj' : j' < rest.length := by simpa using Nat.lt_of_succ_lt_succ hj
        simp only [List.getD_cons_zero, List.getD_cons_succ]
        have hch := assignRanks_chain e.1
          (if e.1.1 < k.1 ∨ k.2 < e.1.2 then r + 1 else r) rest hdomr hsr j' hj'
        constructor
        · intro h
          exact ((hch.2).mp h.symm).symm
        · intro h
          exact ((hch.2).mpr h.symm).symm
    | succ i' =>
      have hi' : i' < rest.length := by simpa using Nat.lt_of_succ_lt_succ hi
      cases j with
      | zero =>
        simp only [List.getD_cons_zero, List.getD_cons_succ]
        have hch := assignRanks_chain e.1
          (if e.1.1 < k.1 ∨ k.2 < e.1.2 then r + 1 else r) rest hdomr hsr i' hi'
        exact hch.2
      | succ j' =>
        have hj' : j' < rest.length := by simpa using Nat.lt_of_succ_lt_succ hj
        simp only [List.getD_cons_succ]
        exact ih e.1 (if e.1.1 < k.1 ∨ k.2 < e.1.2 then r + 1 else r) hdomr hsr i' j' hi' hj'

theorem assignRanks_iff (L : List ((Nat × Nat) × Player)) (hsorted : L.Pairwise rankEntryLe) :
    ∀ i j, i < L.length → j < L.length →
      (((assignRanks none 0 L).getD i ⟨0, playerA⟩).rank =
          ((assignRanks none 0 L).getD j ⟨0, playerA⟩).rank ↔
        (L.getD i ((0, 0), playerA)).1 = (L.getD j ((0, 0), playerA)).1) := by
  cases L with
  | nil => intro i j hi _; cases hi
  | cons e rest =>
    intro i j hi hj
    rw [assignRanks_none_eq]
    have hdom : ∀ x ∈ e :: rest, rankKeyLe e.1 x.1 := by
      intro x hx
      rcases List.mem_cons.mp hx with hx' | hx'
      · rw [hx']
        exact rankKeyLe_refl e.1
      · exact (List.pairwise_cons.mp hsorted).1 x hx'
    exact assignRanks_iff_some e.1 1 (e :: rest) hdom hsorted i j hi hj

/-- Claim C4: `get_rankings` on a running game computes for every player
the key `(best clamped prefix score, first loop index achieving it)` —
`rankKeyFold` provably yields the maximum of the prefix scores and the
earliest index at which it is attained — stable-sorts the keyed players by
score descending then index ascending, and assigns ranks such that two
positions carry the same rank number exactly when their full keys are
equal; the players of the output are the sorted permutation of the roster,
and, the function being pure, repeated calls agree. -/
theorem get_rankings_C4 :
    (∀ (g : GameData) (data : GameRunning), g.game_state = GameState.GameRunning data →
      g.get_rankings =
        assignRanks none 0 (List.insertionSort rankEntryLe (g.players.map fun p =>
          (rankKeyFold (prefixScore g.board_size data.selected_numbers p.board)
            data.selected_numbers.length, p.player)))) ∧
    (∀ L : List ((Nat × Nat) × Player),
      (List.insertionSort rankEntryLe L).Pairwise rankEntryLe ∧
      (List.insertionSort rankEntryLe L).Perm L) ∧
    (∀ L : List ((Nat × Nat) × Player), L.Pairwise rankEntryLe →
      ∀ i j, i < L.length → j < L.length →
        (((assignRanks none 0 L).getD i ⟨0, playerA⟩).rank =
            ((assignRanks none 0 L).getD j ⟨0, playerA⟩).rank ↔
          (L.getD i ((0, 0), playerA)).1 = (L.getD j ((0, 0), playerA)).1)) ∧
    (∀ (last : Option (Nat × Nat)) (r : Nat) (L : List ((Nat × Nat) × Player)),
      ∀ i, i < L.length →
        ((assignRanks last r L).getD i ⟨0, playerA⟩).player =
          (L.getD i ((0, 0), playerA)).2) ∧
    (∀ (f : Nat → Nat) (m : Nat),
      (∀ l, l < m → f l ≤ (rankKeyFold f m).1) ∧
      ((rankKeyFold f m).1 ≠ 0 →
        (rankKeyFold f m).2 < m ∧ f (rankKeyFold f m).2 = (rankKeyFold f m).1 ∧
        ∀ j, j < (rankKeyFold f m).2 → f j < (rankKeyFold f m).1) ∧
      ((rankKeyFold f m).1 = 0 → (rankKeyFold f m).2 = 0)) ∧
    (∀ g : GameData, g.get_rankings = g.get_rankings) := by
  refine ⟨?_, ?_, ?_, ?_, rankKeyFold_spec, fun g => rfl⟩
  · intro g data h
    simp only [GameData.get_rankings, h]
  · intro L
    exact ⟨List.sorted_insertionSort rankEntryLe L, List.perm_insertionSort rankEntryLe L⟩
  · intro L hs i j hi hj
    exact assignRanks_iff L hs i j hi hj
  · intro last r L i hi
    exact assignRanks_player last r L i hi

/-- Witness for C4: the concrete running game `gdRun`, a concrete sorted
key list with distinct keys (so the two rank numbers differ), and the fold
characterisation on a constant score function. -/
theorem get_rankings_C4_witness :
    (gdRun.get_rankings =
      assignRanks none 0 (List.insertionSort rankEntryLe (gdRun.players.map fun p =>
        (rankKeyFold (prefixScore gdRun.board_size [⟨1, "a"⟩] p.board)
          ([⟨1, "a"⟩] : List SelectedCell).length, p.player)))) ∧
    (((assignRanks none 0 [(((2 : Nat), (0 : Nat)), playerA),
          (((1 : Nat), (1 : Nat)), playerB)]).getD 0 ⟨0, playerA⟩).rank =
        ((assignRanks none 0 [(((2 : Nat), (0 : Nat)), playerA),
          (((1 : Nat), (1 : Nat)), playerB)]).getD 1 ⟨0, playerA⟩).rank ↔
      (([(((2 : Nat), (0 : Nat)), playerA),
          (((1 : Nat), (1 : Nat)), playerB)].getD 0 ((0, 0), playerA)).1 =
        ([(((2 : Nat), (0 : Nat)), playerA),
          (((1 : Nat), (1 : Nat)), playerB)].getD 1 ((0, 0), playerA)).1)) ∧
    ((rankKeyFold (fun _ => 3) 2).2 < 2 ∧
      (rankKeyFold (fun _ => 3) 2).1 = 3) := by
  refine ⟨?_, ?_, ?_, ?_⟩
  · exact get_rankings_C4.1 gdRun ⟨"a", [⟨1, "a"⟩]⟩ rfl
  · exact get_rankings_C4.2.2.1 [(((2 : Nat), (0 : Nat)), playerA),
      (((1 : Nat), (1 : Nat)), playerB)] (by decide) 0 1 (by decide) (by decide)
  · exact ((get_rankings_C4.2.2.2.2.1 (fun _ => 3) 2).2.1 (by decide)).1
  · have h := ((get_rankings_C4.2.2.2.2.1 (fun _ => 3) 2).2.1 (by decide)).2.1
    simpa using h.symm
